import Mathlib

/-!
Verification of the SeatIQ seating-optimization engine.

This file gives a shallow embedding of the engine found in
`packages/engine/src` (`types.ts`, `scoring.ts`, `constraints.ts`,
`optimizer.ts`, `explanations.ts`) and proves properties of the embedded
functions.  JavaScript `number` arithmetic is modelled by exact rational
arithmetic (`Rat`); JavaScript `Map`/`Set` objects are modelled by
insertion-ordered association lists and membership lists, matching the
iteration order guaranteed by the JS specification.
-/

namespace SeatIQ

/-- Seniority enumeration from `types.ts`. -/
inductive Seniority where
  | JUNIOR | MID | SENIOR | EXECUTIVE
  deriving DecidableEq

/-- Guest type enumeration from `types.ts`. -/
inductive GuestType where
  | BUYER | SELLER | NEUTRAL | CATALYST
  deriving DecidableEq

/-- Constraint type enumeration from `types.ts`. -/
inductive ConstraintType where
  | MUST_SIT_TOGETHER | MUST_NOT_SIT_TOGETHER
  | MAX_SELLERS_PER_TABLE | MIN_BUYERS_PER_TABLE
  deriving DecidableEq

/-- Guest record from `types.ts`.  Optional string fields are `Option String`
(`none` = the field is absent); the optional `tags` and `knownConnections`
arrays are modelled with `[]` as the absent value, which is observationally
equivalent since the code only ever reads them through `includes`. -/
structure Guest where
  id : String
  name : String
  company : Option String := none
  department : Option String := none
  jobTitle : Option String := none
  seniority : Option Seniority := none
  guestType : GuestType
  tags : List String := []
  knownConnections : List String := []
  deriving DecidableEq

/-- Constraint record from `types.ts`. -/
structure Constraint where
  id : String
  type : ConstraintType
  guestIds : List String
  value : Option Nat := none
  priority : Option Nat := none
  deriving DecidableEq

/-- Objective weights from `types.ts`. -/
structure ObjectiveWeights where
  novelty : Rat
  diversity : Rat
  balance : Rat
  transaction : Rat
  deriving DecidableEq

/-- Table assignment from `types.ts`. -/
structure TableAssignment where
  tableId : String
  guestIds : List String
  deriving DecidableEq

/-- Seating plan from `types.ts`. -/
structure SeatingPlan where
  tables : List TableAssignment
  deriving DecidableEq

/-- Plan metrics from `types.ts`. -/
structure PlanMetrics where
  novelty : Rat
  diversity : Rat
  balance : Rat
  transaction : Rat
  weighted : Rat
  deriving DecidableEq

/-- Reason code from `types.ts`; `impact` and `objective` are the literal
strings used by the TypeScript union types. -/
structure ReasonCode where
  code : String
  tableId : String
  guestIds : List String
  description : String
  impact : String
  objective : Option String := none
  deriving DecidableEq

/-- Plan explanations from `types.ts`.  `perTable` is a JS object used as a
string-keyed record; it is modelled as an insertion-ordered association
list. -/
structure PlanExplanations where
  perTable : List (String × List String)
  overall : String
  reasonCodes : List ReasonCode
  deriving DecidableEq

/-- Optimization result from `types.ts`. -/
structure OptimizationResult where
  plan : SeatingPlan
  metrics : PlanMetrics
  explanations : PlanExplanations
  warnings : List String
  feasible : Bool
  iterations : Nat
  deriving DecidableEq

/-- Optimization config from `types.ts`; the defaults are the ones
destructured in `optimize` (`maxIterations = 1000`, `seed = 42`). -/
structure OptimizationConfig where
  tableCount : Nat
  seatsPerTable : Nat
  maxIterations : Nat := 1000
  seed : Nat := 42
  deriving DecidableEq

/-! ### JS `Map` model

JS `Map.prototype.set` overwrites the value of an existing key in place and
appends new keys; iteration is in insertion order.  An association list with
these two operations models that exactly. -/

/-- JS `Map.set`: overwrite in place if the key exists, append otherwise. -/
def mapSet {α : Type} (m : List (String × α)) (k : String) (v : α) :
    List (String × α) :=
  if m.any (fun p => p.1 == k) then
    m.map (fun p => if p.1 == k then (k, v) else p)
  else m ++ [(k, v)]

/-- JS `Map.get` as an `Option`. -/
def mapGet {α : Type} (m : List (String × α)) (k : String) : Option α :=
  (m.find? (fun p => p.1 == k)).map (·.2)

/-- JS truthiness of an optional string (`undefined` and `""` are falsy). -/
def truthy : Option String → Bool
  | none => false
  | some s => !(s == "")

/-- The `guestMap` built at the top of every scoring function: a JS `Map`
from id to guest, where a later record with the same id overwrites an
earlier one. -/
def guestLookup (guests : List Guest) (gid : String) : Option Guest :=
  guests.foldl (fun acc g => if g.id == gid then some g else acc) none

/-- `table.guestIds.map(id => guestMap.get(id)).filter(g => g !== undefined)`:
the guests of a table that resolve in the guest map. -/
def resolvedGuests (guests : List Guest) (t : TableAssignment) : List Guest :=
  t.guestIds.filterMap (guestLookup guests)

/-- All unordered pairs `(l[i], l[j])` with `i < j`, in the traversal order of
the two nested `for` loops of `calculateNoveltyScore`. -/
def listPairs {α : Type} : List α → List (α × α)
  | [] => []
  | x :: xs => xs.map (fun y => (x, y)) ++ listPairs xs

/-! ### Scoring engine (`scoring.ts`) -/

/-- Per-pair novelty score before the `Math.max(0, ·)` clamp: starts at 1.0,
minus 0.4 for a shared company, 0.3 for a shared department, 0.3 for a known
connection (in either direction). -/
def pairScore (g1 g2 : Guest) : Rat :=
  let c : Rat := if truthy g1.company && truthy g2.company &&
      (g1.company == g2.company) then 0.4 else 0
  let d : Rat := if truthy g1.department && truthy g2.department &&
      (g1.department == g2.department) then 0.3 else 0
  let k : Rat := if g1.knownConnections.contains g2.id ||
      g2.knownConnections.contains g1.id then 0.3 else 0
  1 - c - d - k

/-- `calculateNoveltyScore` from `scoring.ts`. -/
def calculateNoveltyScore (plan : SeatingPlan) (guests : List Guest) : Rat :=
  let pairs := (plan.tables.map
    (fun t => listPairs (resolvedGuests guests t))).flatten
  let totalScore := (pairs.map (fun p => max 0 (pairScore p.1 p.2))).sum
  if 0 < pairs.length then totalScore / (pairs.length : Rat) else 1

/-- Companies of a table's resolved guests after `filter(Boolean)`:
`undefined` and `""` are dropped. -/
def companyList (tg : List Guest) : List String :=
  ((tg.map Guest.company).filterMap id).filter (fun s => !(s == ""))

/-- Departments of a table's resolved guests after `filter(Boolean)`. -/
def departmentList (tg : List Guest) : List String :=
  ((tg.map Guest.department).filterMap id).filter (fun s => !(s == ""))

/-- Per-table diversity contribution of `calculateDiversityScore`. -/
def diversityTableScore (tg : List Guest) : Rat :=
  let companyDiversity : Rat :=
    ((companyList tg).dedup.length : Rat) / max 1 (tg.length : Rat)
  let deptDiversity : Rat :=
    ((departmentList tg).dedup.length : Rat) / max 1 (tg.length : Rat)
  (companyDiversity + deptDiversity) / 2

/-- `calculateDiversityScore` from `scoring.ts`.  A table whose resolved
guest list is empty is skipped (`continue`), but the final denominator
counts tables by their raw `guestIds` length. -/
def calculateDiversityScore (plan : SeatingPlan) (guests : List Guest) : Rat :=
  let totalScore := (plan.tables.map (fun t =>
    let tg := resolvedGuests guests t
    if tg.length = 0 then 0 else diversityTableScore tg)).sum
  let n := (plan.tables.filter (fun t => 0 < t.guestIds.length)).length
  if 0 < n then totalScore / (n : Rat) else 1

/-- The nonzero per-level counts of the `seniorityCount` map.  The JS map
iterates in first-occurrence order; only the sum and the number of entries
are consumed, both order-independent, so a fixed enumeration of the four
levels is used. -/
def seniorityCounts (tg : List Guest) : List Nat :=
  ([Seniority.JUNIOR, Seniority.MID, Seniority.SENIOR,
    Seniority.EXECUTIVE].map
      (fun s => (tg.filter (fun g => g.seniority == some s)).length)).filter
    (fun n => 0 < n)

/-- Per-table balance contribution of `calculateBalanceScore`: the average of
the seniority-evenness term and the guest-type term. -/
def balanceTableScore (tg : List Guest) : Rat :=
  let counts := seniorityCounts tg
  let seniorityScore : Rat :=
    if counts.length = 0 then 0.5
    else
      let total : Rat := (counts.sum : Rat)
      let idealPerLevel := total / 4
      ((counts.map (fun c =>
        1 - |(c : Rat) - idealPerLevel| / max 1 idealPerLevel)).sum) /
        (counts.length : Rat)
  let typeScore : Rat :=
    if 1 < (tg.map Guest.guestType).dedup.length then 1 else 0.5
  (seniorityScore + typeScore) / 2

/-- `calculateBalanceScore` from `scoring.ts`. -/
def calculateBalanceScore (plan : SeatingPlan) (guests : List Guest) : Rat :=
  let totalScore := (plan.tables.map (fun t =>
    let tg := resolvedGuests guests t
    if tg.length = 0 then 0 else balanceTableScore tg)).sum
  let n := (plan.tables.filter (fun t => 0 < t.guestIds.length)).length
  if 0 < n then totalScore / (n : Rat) else 1

/-- Per-table transaction contribution of `calculateTransactionScore`,
including the final clamp to `[0, 1]`. -/
def transactionTableScore (tg : List Guest) : Rat :=
  let buyers := tg.filter (fun g => g.guestType == GuestType.BUYER)
  let sellers := tg.filter (fun g => g.guestType == GuestType.SELLER)
  let catalysts := tg.filter (fun g => g.guestType == GuestType.CATALYST)
  let s1 : Rat := if 0 < buyers.length && 0 < sellers.length then 0.4 else 0
  let s2 : Rat := if 0 < catalysts.length &&
      (0 < buyers.length || 0 < sellers.length) then s1 + 0.2 else s1
  -- `filter(c => c !== undefined)` keeps empty strings, unlike the
  -- `filter(Boolean)` used elsewhere
  let sellerCompanies := (sellers.map Guest.company).filterMap id
  let s3 : Rat := if sellerCompanies.dedup.length < sellerCompanies.length
    then s2 - 0.3 else s2
  let s4 : Rat := if 0 < sellers.length && 0 < buyers.length then
      s3 + 0.2 * ((min buyers.length sellers.length : Rat) /
        (max buyers.length sellers.length : Rat))
    else s3
  let s5 : Rat := if (0 < sellers.length && buyers.length = 0) ||
      (0 < buyers.length && sellers.length = 0) then s4 - 0.2 else s4
  max 0 (min 1 (0.5 + s5))

/-- `calculateTransactionScore` from `scoring.ts`. -/
def calculateTransactionScore (plan : SeatingPlan) (guests : List Guest) :
    Rat :=
  let totalScore := (plan.tables.map (fun t =>
    let tg := resolvedGuests guests t
    if tg.length = 0 then 0 else transactionTableScore tg)).sum
  let n := (plan.tables.filter (fun t => 0 < t.guestIds.length)).length
  if 0 < n then totalScore / (n : Rat) else 0.5

/-- `calculateWeightedScore` from `scoring.ts`: the dot product of the four
scores with the caller-supplied weights. -/
def calculateWeightedScore (novelty diversity balance transaction : Rat)
    (weights : ObjectiveWeights) : Rat :=
  novelty * weights.novelty + diversity * weights.diversity +
    balance * weights.balance + transaction * weights.transaction

/-- `calculateAllMetrics` from `scoring.ts`. -/
def calculateAllMetrics (plan : SeatingPlan) (guests : List Guest)
    (weights : ObjectiveWeights) : PlanMetrics :=
  let novelty := calculateNoveltyScore plan guests
  let diversity := calculateDiversityScore plan guests
  let balance := calculateBalanceScore plan guests
  let transaction := calculateTransactionScore plan guests
  { novelty, diversity, balance, transaction,
    weighted :=
      calculateWeightedScore novelty diversity balance transaction weights }

/-! ### Constraint validation (`constraints.ts`) -/

/-- Constraint violation record from `constraints.ts`; the optional
`tableId` field is `none` for the `MUST_SIT_TOGETHER` check, which does not
set it. -/
structure ConstraintViolation where
  constraintId : String
  constraintType : String
  message : String
  tableId : Option String := none
  guestIds : List String
  deriving DecidableEq

/-- Validation result record from `constraints.ts`. -/
structure ValidationResult where
  valid : Bool
  violations : List ConstraintViolation
  deriving DecidableEq

/-- The `guestToTable` map of `validateConstraints`: guest id to the id of
the last table whose guest list contains it. -/
def guestToTable (plan : SeatingPlan) : List (String × String) :=
  plan.tables.foldl
    (fun m t => t.guestIds.foldl (fun m' gid => mapSet m' gid t.tableId) m) []

/-- The `tableToGuests` map of `validateConstraints`. -/
def tableToGuests (plan : SeatingPlan) : List (String × List String) :=
  plan.tables.foldl (fun m t => mapSet m t.tableId t.guestIds) []

/-- `checkMustSitTogether` from `constraints.ts`: the distinct tables at
which referenced guests are actually seated must number at most one. -/
def checkMustSitTogether (c : Constraint) (g2t : List (String × String)) :
    Option ConstraintViolation :=
  let tabs := (c.guestIds.filterMap (mapGet g2t)).dedup
  if 1 < tabs.length then
    some { constraintId := c.id, constraintType := "MUST_SIT_TOGETHER",
           message := "Guests must sit together but are at " ++
             toString tabs.length ++ " different tables",
           guestIds := c.guestIds }
  else none

/-- `checkMustNotSitTogether` from `constraints.ts`: group the seated
referenced guests by table (a JS `Map` in insertion order) and report the
first table holding more than one of them. -/
def checkMustNotSitTogether (c : Constraint) (g2t : List (String × String)) :
    Option ConstraintViolation :=
  let groups := c.guestIds.foldl (fun m gid =>
    match mapGet g2t gid with
    | none => m
    | some tid => mapSet m tid ((mapGet m tid).getD [] ++ [gid])) []
  match groups.find? (fun p => 1 < p.2.length) with
  | none => none
  | some p =>
      some { constraintId := c.id,
             constraintType := "MUST_NOT_SIT_TOGETHER",
             message := "Guests must not sit together but " ++
               toString p.2.length ++ " are at the same table",
             tableId := some p.1, guestIds := p.2 }

/-- `checkMaxSellersPerTable` from `constraints.ts`: one violation per table
whose seller count exceeds the threshold (`value ?? 2`). -/
def checkMaxSellersPerTable (c : Constraint)
    (t2g : List (String × List String)) (guests : List Guest) :
    List ConstraintViolation :=
  let maxSellers := c.value.getD 2
  (t2g.map (fun p =>
    let sellers := p.2.filter (fun gid =>
      match guestLookup guests gid with
      | some g => g.guestType == GuestType.SELLER
      | none => false)
    if maxSellers < sellers.length then
      [{ constraintId := c.id, constraintType := "MAX_SELLERS_PER_TABLE",
         message := "Table has " ++ toString sellers.length ++
           " sellers, max allowed is " ++ toString maxSellers,
         tableId := some p.1, guestIds := sellers }]
    else [])).flatten

/-- `checkMinBuyersPerTable` from `constraints.ts`: one violation per
non-empty table whose buyer count is below the threshold (`value ?? 1`). -/
def checkMinBuyersPerTable (c : Constraint)
    (t2g : List (String × List String)) (guests : List Guest) :
    List ConstraintViolation :=
  let minBuyers := c.value.getD 1
  (t2g.map (fun p =>
    if p.2.length = 0 then []
    else
      let buyers := p.2.filter (fun gid =>
        match guestLookup guests gid with
        | some g => g.guestType == GuestType.BUYER
        | none => false)
      if buyers.length < minBuyers then
        [{ constraintId := c.id, constraintType := "MIN_BUYERS_PER_TABLE",
           message := "Table has " ++ toString buyers.length ++
             " buyers, minimum required is " ++ toString minBuyers,
           tableId := some p.1, guestIds := buyers }]
      else [])).flatten

/-- `validateConstraints` from `constraints.ts`. -/
def validateConstraints (plan : SeatingPlan) (constraints : List Constraint)
    (guests : List Guest) : ValidationResult :=
  let g2t := guestToTable plan
  let t2g := tableToGuests plan
  let violations := constraints.foldl (fun acc c =>
    match c.type with
    | ConstraintType.MUST_SIT_TOGETHER =>
        acc ++ (checkMustSitTogether c g2t).toList
    | ConstraintType.MUST_NOT_SIT_TOGETHER =>
        acc ++ (checkMustNotSitTogether c g2t).toList
    | ConstraintType.MAX_SELLERS_PER_TABLE =>
        acc ++ checkMaxSellersPerTable c t2g guests
    | ConstraintType.MIN_BUYERS_PER_TABLE =>
        acc ++ checkMinBuyersPerTable c t2g guests) []
  { valid := violations.isEmpty, violations }

/-- Feasibility verdict record returned by `checkFeasibility`. -/
structure FeasibilityResult where
  feasible : Bool
  reason : Option String := none
  deriving DecidableEq

/-- `checkFeasibility` from `constraints.ts`: capacity first, then the size
of every `MUST_SIT_TOGETHER` group, returning on the first failure. -/
def checkFeasibility (guests : List Guest) (constraints : List Constraint)
    (tableCount seatsPerTable : Nat) : FeasibilityResult :=
  let totalSeats := tableCount * seatsPerTable
  if totalSeats < guests.length then
    { feasible := false,
      reason := some ("Not enough seats: " ++ toString guests.length ++
        " guests but only " ++ toString totalSeats ++ " seats") }
  else
    match constraints.find? (fun c =>
        c.type == ConstraintType.MUST_SIT_TOGETHER &&
        seatsPerTable < c.guestIds.length) with
    | some c =>
        { feasible := false,
          reason := some ("MUST_SIT_TOGETHER constraint has " ++
            toString c.guestIds.length ++
            " guests but tables only have " ++ toString seatsPerTable ++
            " seats") }
    | none => { feasible := true }

/-! ### Explanation generation (`explanations.ts`) -/

/-- Decimal formatting of `Number.prototype.toFixed`: the integer `n` with
`n / 10^digits` closest to the value, the larger `n` on a tie. -/
def fmtFixed (digits : Nat) (q : Rat) : String :=
  let scaled : Int := (q * (10 : Rat) ^ digits + 1/2).floor
  if digits = 0 then toString scaled
  else
    let sign := if scaled < 0 then "-" else ""
    let a := scaled.natAbs
    let fracDigits := toString (a % 10 ^ digits)
    let pad := (List.replicate (digits - fracDigits.length) '0').asString
    sign ++ toString (a / 10 ^ digits) ++ "." ++ pad ++ fracDigits

/-- The company-diversity / same-company block of the per-table loop of
`generateExplanations`: an if-else-if chain pushing at most one code. -/
def companyNotes (t : TableAssignment) (tg : List Guest) :
    List String × List ReasonCode :=
  let companies := (companyList tg).dedup
  if 1 < companies.length then
    let explanation := "Cross-company networking: " ++
      toString companies.length ++ " different companies represented"
    ([explanation],
     [{ code := "COMPANY_DIVERSITY", tableId := t.tableId,
        guestIds := t.guestIds, description := explanation,
        impact := "positive", objective := some "diversity" }])
  else if companies.length = 1 && 2 < tg.length then
    let companyName := companies.headD ""
    let explanation := "Same company table: All guests from " ++ companyName
    ([explanation],
     [{ code := "SAME_COMPANY", tableId := t.tableId,
        guestIds := t.guestIds, description := explanation,
        impact := "negative", objective := some "novelty" }])
  else ([], [])

/-- The department-mix block of the per-table loop. -/
def departmentNotes (t : TableAssignment) (tg : List Guest) :
    List String × List ReasonCode :=
  let departments := (departmentList tg).dedup
  if 2 < departments.length then
    let explanation := "Department mix: " ++ toString departments.length ++
      " different departments"
    ([explanation],
     [{ code := "DEPARTMENT_DIVERSITY", tableId := t.tableId,
        guestIds := t.guestIds, description := explanation,
        impact := "positive", objective := some "diversity" }])
  else ([], [])

/-- The seniority-mix block of the per-table loop. -/
def seniorityNotes (t : TableAssignment) (tg : List Guest) :
    List String × List ReasonCode :=
  let seniorityLevels := ((tg.map Guest.seniority).filterMap id).dedup
  if 2 < seniorityLevels.length then
    let explanation := "Balanced seniority: " ++
      toString seniorityLevels.length ++ " experience levels"
    ([explanation],
     [{ code := "SENIORITY_MIX", tableId := t.tableId,
        guestIds := t.guestIds, description := explanation,
        impact := "positive", objective := some "balance" }])
  else ([], [])

/-- The buyer-seller block of the per-table loop. -/
def buyerSellerNotes (t : TableAssignment) (tg : List Guest) :
    List String × List ReasonCode :=
  let buyers := tg.filter (fun g => g.guestType == GuestType.BUYER)
  let sellers := tg.filter (fun g => g.guestType == GuestType.SELLER)
  if 0 < buyers.length && 0 < sellers.length then
    let explanation := "Business opportunity: " ++
      toString buyers.length ++ " buyer(s) and " ++
      toString sellers.length ++ " seller(s)"
    ([explanation],
     [{ code := "BUYER_SELLER_MIX", tableId := t.tableId,
        guestIds := buyers.map Guest.id ++ sellers.map Guest.id,
        description := explanation, impact := "positive",
        objective := some "transaction" }])
  else ([], [])

/-- The catalyst block of the per-table loop. -/
def catalystNotes (t : TableAssignment) (tg : List Guest) :
    List String × List ReasonCode :=
  let catalysts := tg.filter (fun g => g.guestType == GuestType.CATALYST)
  if 0 < catalysts.length then
    let catalystNames := String.intercalate ", " (catalysts.map Guest.name)
    let explanation := "Conversation catalyst: " ++ catalystNames
    ([explanation],
     [{ code := "CATALYST_PRESENT", tableId := t.tableId,
        guestIds := catalysts.map Guest.id, description := explanation,
        impact := "positive", objective := some "balance" }])
  else ([], [])

/-- The competing-sellers block of the per-table loop. -/
def competingSellerNotes (t : TableAssignment) (tg : List Guest) :
    List String × List ReasonCode :=
  let sellers := tg.filter (fun g => g.guestType == GuestType.SELLER)
  let sellerCompanies := (sellers.map Guest.company).filterMap id
  if sellerCompanies.dedup.length < sellerCompanies.length then
    let explanation := "Note: Multiple sellers from the same company"
    ([explanation],
     [{ code := "COMPETING_SELLERS", tableId := t.tableId,
        guestIds := sellers.map Guest.id, description := explanation,
        impact := "negative", objective := some "transaction" }])
  else ([], [])

/-- The body of the fully-satisfied `MUST_SIT_TOGETHER` check for one
constraint at one table. -/
def groupedNoteFor (guests : List Guest) (t : TableAssignment)
    (c : Constraint) : List String × List ReasonCode :=
  let constraintGuests := c.guestIds.filter (fun gid =>
    t.guestIds.contains gid)
  if constraintGuests.length = c.guestIds.length then
    let guestNames := String.intercalate ", "
      (((constraintGuests.map (fun gid =>
          (guestLookup guests gid).map Guest.name)).filterMap id).filter
        (fun s => !(s == "")))
    let explanation := "Grouped by request: " ++ guestNames
    ([explanation],
     [{ code := "MUST_SIT_TOGETHER_SATISFIED", tableId := t.tableId,
        guestIds := constraintGuests, description := explanation,
        impact := "neutral" }])
  else (([] : List String), ([] : List ReasonCode))

/-- The fully-satisfied `MUST_SIT_TOGETHER` block of the per-table loop,
one entry per constraint in input order. -/
def groupedNotes (guests : List Guest) (constraints : List Constraint)
    (t : TableAssignment) : List (List String × List ReasonCode) :=
  constraints.map (fun c =>
    if c.type == ConstraintType.MUST_SIT_TOGETHER then
      groupedNoteFor guests t c
    else (([] : List String), ([] : List ReasonCode)))

/-- The explanation strings and reason codes pushed for one (resolved
non-empty) table by the per-table loop of `generateExplanations`, in push
order. -/
def tableNotes (guests : List Guest) (constraints : List Constraint)
    (t : TableAssignment) : List String × List ReasonCode :=
  let tg := resolvedGuests guests t
  let n1 := companyNotes t tg
  let n2 := departmentNotes t tg
  let n3 := seniorityNotes t tg
  let n4 := buyerSellerNotes t tg
  let n5 := catalystNotes t tg
  let n6 := competingSellerNotes t tg
  let n7 := groupedNotes guests constraints t
  (n1.1 ++ n2.1 ++ n3.1 ++ n4.1 ++ n5.1 ++ n6.1 ++
     (n7.map Prod.fst).flatten,
   n1.2 ++ n2.2 ++ n3.2 ++ n4.2 ++ n5.2 ++ n6.2 ++
     (n7.map Prod.snd).flatten)

/-- `generateOverallSummary` from `explanations.ts`.  The JS stable
descending sort followed by taking element 0 selects the earliest objective
of maximal score, modelled directly by a fold. -/
def generateOverallSummary (metrics : PlanMetrics) (plan : SeatingPlan)
    (guests : List Guest) (reasonCodes : List ReasonCode) : String :=
  let p1 := "Overall optimization score: " ++
    fmtFixed 1 (metrics.weighted * 100) ++ "%"
  let objectives : List (String × Rat) :=
    [("new connections", metrics.novelty),
     ("cross-department mixing", metrics.diversity),
     ("balanced conversations", metrics.balance),
     ("business opportunities", metrics.transaction)]
  let best := objectives.foldl (fun b o => if b.2 < o.2 then o else b)
    ("new connections", metrics.novelty)
  let parts2 := if (0.7 : Rat) ≤ best.2 then
      [p1, "Strong performance in " ++ best.1 ++ " (" ++
        fmtFixed 0 (best.2 * 100) ++ "%)"]
    else [p1]
  let positiveCount :=
    (reasonCodes.filter (fun r => r.impact == "positive")).length
  let negativeCount :=
    (reasonCodes.filter (fun r => r.impact == "negative")).length
  let parts3 := if negativeCount * 2 < positiveCount then
      parts2 ++ ["Well-balanced tables with good networking potential"]
    else if positiveCount < negativeCount then
      parts2 ++ ["Some trade-offs were made to satisfy hard constraints"]
    else parts2
  let occupied := (plan.tables.filter (fun t => 0 < t.guestIds.length)).length
  let parts4 := parts3 ++ [toString guests.length ++ " guests across " ++
    toString occupied ++ " tables"]
  String.intercalate ". " parts4 ++ "."

/-- `generateExplanations` from `explanations.ts`.  Tables whose resolved
guest list is empty are skipped entirely (`continue` before anything is
pushed or recorded). -/
def generateExplanations (plan : SeatingPlan) (guests : List Guest)
    (metrics : PlanMetrics) (constraints : List Constraint) :
    PlanExplanations :=
  let (perTable, reasonCodes) := plan.tables.foldl
    (fun (acc : List (String × List String) × List ReasonCode) t =>
      let tg := resolvedGuests guests t
      if tg.length = 0 then acc
      else
        let notes := tableNotes guests constraints t
        (mapSet acc.1 t.tableId notes.1, acc.2 ++ notes.2))
    ([], [])
  { perTable, reasonCodes,
    overall := generateOverallSummary metrics plan guests reasonCodes }

/-! ### Optimizer (`optimizer.ts`)

The `SeededRandom` linear-congruential generator is modelled with exact
natural-number arithmetic: `& 0x7fffffff` on a non-negative 32-bit value is
reduction modulo `2^31`.  The generator state is threaded explicitly. -/

/-- One step of the `SeededRandom` LCG: `seed * 1103515245 + 12345` masked
to 31 bits.  Marked irreducible so that elaboration never unfolds the large
literals; proofs about concrete seeds go through `with_unfolding_all`. -/
@[irreducible] def lcgNext (seed : Nat) : Nat := (seed * 1103515245 + 12345) % 2 ^ 31

/-- Swap of two list positions; an out-of-range index leaves the list
unchanged. -/
def listSwap {α : Type} (l : List α) (i j : Nat) : List α :=
  match l[i]?, l[j]? with
  | some a, some b => (l.set i b).set j a
  | _, _ => l

/-- The Fisher-Yates loop of `SeededRandom.shuffle`, indices running
downward; the pattern variable is the current index minus one.  At index
`i + 1` the drawn position is `floor(next() * (i + 2))` where `next()` is
`seed / 0x7fffffff`. -/
def shuffleAux {α : Type} : Nat → List α → Nat → List α × Nat
  | s, l, 0 => (l, s)
  | s, l, i + 1 =>
      let s2 := lcgNext s
      let j := s2 * (i + 2) / 0x7fffffff
      shuffleAux s2 (listSwap l (i + 1) j) i

/-- `SeededRandom.shuffle`: a seeded Fisher-Yates shuffle of a copy of the
array, returning the shuffled list and the final generator state. -/
def shuffle {α : Type} (s : Nat) (l : List α) : List α × Nat :=
  shuffleAux s l (l.length - 1)

/-- Append a guest id to the table at an index; an out-of-range index
leaves the tables unchanged. -/
def pushAt (tables : List TableAssignment) (i : Nat) (gid : String) :
    List TableAssignment :=
  match tables[i]? with
  | some t => tables.set i { t with guestIds := t.guestIds ++ [gid] }
  | none => tables

/-- The empty tables created at the top of `createInitialAssignment`,
labelled `table_1 … table_n`. -/
def initialTables (tableCount : Nat) : List TableAssignment :=
  (List.range tableCount).map
    (fun i => { tableId := "table_" ++ toString (i + 1), guestIds := [] })

/-- One guest id of a `MUST_SIT_TOGETHER` group: pushed to the chosen table
and recorded in `assignedGuests` unless already assigned. -/
def placeGroupMember (ti : Nat)
    (st : List TableAssignment × List String) (gid : String) :
    List TableAssignment × List String :=
  if st.2.contains gid then st
  else (pushAt st.1 ti gid, gid :: st.2)

/-- One `MUST_SIT_TOGETHER` constraint of the first phase of
`createInitialAssignment`: find the first table with room for the whole
group and add its not-yet-assigned members there; skip the group silently
when no table has room. -/
def placeGroup (seatsPerTable : Nat)
    (st : List TableAssignment × List String) (c : Constraint) :
    List TableAssignment × List String :=
  match st.1.findIdx? (fun t =>
      decide (t.guestIds.length + c.guestIds.length ≤ seatsPerTable)) with
  | none => st
  | some ti => c.guestIds.foldl (placeGroupMember ti) st

/-- `MUST_NOT_SIT_TOGETHER` partners of a guest, in constraint order. -/
def mustNotSitWith (constraints : List Constraint) (gid : String) :
    List String :=
  ((constraints.filter (fun c =>
      c.type == ConstraintType.MUST_NOT_SIT_TOGETHER &&
      c.guestIds.contains gid)).map
    (fun c => c.guestIds.filter (fun x => !(x == gid)))).flatten

/-- Whether seating `gid` at table `t` violates a `MUST_NOT_SIT_TOGETHER`
constraint. -/
def hasConflict (constraints : List Constraint) (gid : String)
    (t : TableAssignment) : Bool :=
  t.guestIds.any (fun x => (mustNotSitWith constraints gid).contains x)

/-- The round-robin `while (attempts < tableCount)` scan of
`createInitialAssignment`: take the table at the current pointer if it has
room and no conflict (the pointer stays on it), otherwise advance the
pointer modulo `tableCount`; report whether the guest was placed. -/
def scanLoop (constraints : List Constraint) (gid : String)
    (seatsPerTable tableCount : Nat) :
    List TableAssignment → Nat → Nat → List TableAssignment × Nat × Bool
  | tables, idx, 0 => (tables, idx, false)
  | tables, idx, attempts + 1 =>
      let t := tables.getD idx { tableId := "", guestIds := [] }
      if t.guestIds.length < seatsPerTable &&
          !(hasConflict constraints gid t) then
        (pushAt tables idx gid, idx, true)
      else
        scanLoop constraints gid seatsPerTable tableCount tables
          ((idx + 1) % tableCount) attempts

/-- One shuffled guest of the second phase of `createInitialAssignment`:
round-robin scan, then the forced fallback into the first table with any
room, then the unconditional advance of the round-robin pointer. -/
def placeGuestRR (constraints : List Constraint)
    (seatsPerTable tableCount : Nat)
    (st : List TableAssignment × Nat) (g : Guest) :
    List TableAssignment × Nat :=
  let scanned := scanLoop constraints g.id seatsPerTable tableCount
    st.1 st.2 tableCount
  let tables1 := scanned.1
  let idx1 := scanned.2.1
  let tables2 :=
    if scanned.2.2 then tables1
    else
      match tables1.findIdx? (fun t =>
          decide (t.guestIds.length < seatsPerTable)) with
      | some i => pushAt tables1 i g.id
      | none => tables1
  (tables2, (idx1 + 1) % tableCount)

/-- `createInitialAssignment` from `optimizer.ts`, returning the plan and
the generator state after the shuffle. -/
def createInitialAssignment (guests : List Guest)
    (constraints : List Constraint) (tableCount seatsPerTable seed : Nat) :
    SeatingPlan × Nat :=
  let start := ((constraints.filter (fun c =>
      c.type == ConstraintType.MUST_SIT_TOGETHER)).foldl
    (placeGroup seatsPerTable) (initialTables tableCount, []))
  let tables0 := start.1
  let assignedGuests := start.2
  let shuffled := shuffle seed
    (guests.filter (fun g => !(assignedGuests.contains g.id)))
  let remainingGuests := shuffled.1
  let tablesF := (remainingGuests.foldl
    (placeGuestRR constraints seatsPerTable tableCount) (tables0, 0)).1
  ({ tables := tablesF }, shuffled.2)

/-- The `splice(indexOf(g), 1)` removal of `repairAssignment`: remove the
first occurrence of the guest; when the guest is absent, `indexOf` returns
`-1` and `splice(-1, 1)` removes the last element instead. -/
def spliceRemove (l : List String) (g : String) : List String :=
  if l.contains g then l.erase g else l.dropLast

/-- One relocation attempt of `repairAssignment`: find, in order, another
table with room that contains no member of the constraint, and move the
popped guest there; keep the tables unchanged when none exists. -/
def relocateStep (c : Constraint) (seatsPerTable : Nat)
    (tables : List TableAssignment) (ti : Nat) (guestToMove : String) :
    List TableAssignment :=
  match (List.range tables.length).find? (fun j =>
      let t := tables.getD j { tableId := "", guestIds := [] }
      !(j == ti) && t.guestIds.length < seatsPerTable &&
        !(t.guestIds.any (fun x => c.guestIds.contains x))) with
  | none => tables
  | some j =>
      let tables1 := match tables[ti]? with
        | some t =>
            tables.set ti { t with guestIds := spliceRemove t.guestIds guestToMove }
        | none => tables
      pushAt tables1 j guestToMove

/-- The `while (conflictingGuests.length > 1)` loop of `repairAssignment`.
The worklist is the reversed snapshot of the conflicting guests: the loop
pops from the end of the snapshot and stops when at most one remains. -/
def repairWhile (c : Constraint) (seatsPerTable : Nat) :
    List TableAssignment → Nat → List String → List TableAssignment
  | tables, _, [] => tables
  | tables, _, [_] => tables
  | tables, ti, g :: rest =>
      repairWhile c seatsPerTable (relocateStep c seatsPerTable tables ti g)
        ti rest

/-- One (constraint, table) step of `repairAssignment`: snapshot the members
of the constraint seated at the table and relocate from the end while more
than one remains. -/
def repairTable (c : Constraint) (seatsPerTable : Nat)
    (tables : List TableAssignment) (ti : Nat) : List TableAssignment :=
  let t := tables.getD ti { tableId := "", guestIds := [] }
  repairWhile c seatsPerTable tables ti
    ((t.guestIds.filter (fun gid => c.guestIds.contains gid)).reverse)

/-- `repairAssignment` from `optimizer.ts`; the `guests`, `tableCount` and
random-source parameters of the source are never read. -/
def repairAssignment (plan : SeatingPlan) (constraints : List Constraint)
    (seatsPerTable : Nat) : SeatingPlan :=
  let tablesF := (constraints.filter (fun c =>
      c.type == ConstraintType.MUST_NOT_SIT_TOGETHER)).foldl
    (fun tables c =>
      (List.range tables.length).foldl
        (fun ts ti => repairTable c seatsPerTable ts ti) tables)
    plan.tables
  { tables := tablesF }

/-- `swapGuests` from `optimizer.ts`: exchange the guests at two
(table, position) slots. -/
def swapGuests (plan : SeatingPlan) (t1 g1 t2 g2 : Nat) : SeatingPlan :=
  let a := ((plan.tables.getD t1 { tableId := "", guestIds := [] }).guestIds).getD g1 ""
  let b := ((plan.tables.getD t2 { tableId := "", guestIds := [] }).guestIds).getD g2 ""
  let tables1 := match plan.tables[t1]? with
    | some t => plan.tables.set t1 { t with guestIds := t.guestIds.set g1 b }
    | none => plan.tables
  let tables2 := match tables1[t2]? with
    | some t => tables1.set t2 { t with guestIds := t.guestIds.set g2 a }
    | none => tables1
  { tables := tables2 }

/-- `moveGuest` from `optimizer.ts`: splice the guest out of one table and
push it onto another. -/
def moveGuest (plan : SeatingPlan) (fromTable gi toTable : Nat) :
    SeatingPlan :=
  let gid := ((plan.tables.getD fromTable { tableId := "", guestIds := [] }).guestIds).getD gi ""
  let tables1 := match plan.tables[fromTable]? with
    | some t =>
        plan.tables.set fromTable { t with guestIds := t.guestIds.eraseIdx gi }
    | none => plan.tables
  { tables := pushAt tables1 toTable gid }

/-- The swap candidates of one pass of the local search, in the traversal
order of the four nested loops: `t1 < t2` over table indices, then guest
positions within each table. -/
def swapCandidates (plan : SeatingPlan) : List (Nat × Nat × Nat × Nat) :=
  ((List.range plan.tables.length).map (fun t1 =>
    (((List.range plan.tables.length).filter (fun t2 => t1 < t2)).map
      (fun t2 =>
        ((List.range (plan.tables.getD t1 { tableId := "", guestIds := [] }).guestIds.length).map
          (fun g1 =>
            (List.range (plan.tables.getD t2 { tableId := "", guestIds := [] }).guestIds.length).map
              (fun g2 => (t1, g1, t2, g2)))).flatten)).flatten)).flatten

/-- The move candidates of one pass of the local search, in traversal
order: `t1` over all tables, `t2` over all other tables that still have
room, then guest positions of `t1`. -/
def moveCandidates (plan : SeatingPlan) (seatsPerTable : Nat) :
    List (Nat × Nat × Nat) :=
  ((List.range plan.tables.length).map (fun t1 =>
    (((List.range plan.tables.length).filter (fun t2 =>
        !(t1 == t2) &&
        (plan.tables.getD t2 { tableId := "", guestIds := [] }).guestIds.length < seatsPerTable)).map
      (fun t2 =>
        (List.range (plan.tables.getD t1 { tableId := "", guestIds := [] }).guestIds.length).map
          (fun g => (t1, g, t2)))).flatten)).flatten

/-- The body of one `while` pass of the local search: the first swap, and
failing that the first move, that validates and strictly increases the
weighted score (greedy first improvement). -/
def findImprovement (guests : List Guest) (constraints : List Constraint)
    (weights : ObjectiveWeights) (seatsPerTable : Nat) (plan : SeatingPlan)
    (current : Rat) : Option (SeatingPlan × PlanMetrics) :=
  let trySwap := (swapCandidates plan).findSome? (fun c =>
    let newPlan := swapGuests plan c.1 c.2.1 c.2.2.1 c.2.2.2
    if (validateConstraints newPlan constraints guests).valid then
      let newMetrics := calculateAllMetrics newPlan guests weights
      if current < newMetrics.weighted then some (newPlan, newMetrics)
      else none
    else none)
  match trySwap with
  | some r => some r
  | none =>
      (moveCandidates plan seatsPerTable).findSome? (fun c =>
        let newPlan := moveGuest plan c.1 c.2.1 c.2.2
        if (validateConstraints newPlan constraints guests).valid then
          let newMetrics := calculateAllMetrics newPlan guests weights
          if current < newMetrics.weighted then some (newPlan, newMetrics)
          else none
        else none)

/-- The `while (improved && iterations < maxIterations)` loop of
`optimize`.  The fuel is the number of iterations still allowed; the
counter is incremented at the top of every executed pass, including the
final non-improving one. -/
def searchLoop (guests : List Guest) (constraints : List Constraint)
    (weights : ObjectiveWeights) (seatsPerTable : Nat) :
    Nat → SeatingPlan → PlanMetrics → Nat →
    SeatingPlan × PlanMetrics × Nat
  | 0, plan, metrics, iterations => (plan, metrics, iterations)
  | fuel + 1, plan, metrics, iterations =>
      match findImprovement guests constraints weights seatsPerTable plan
          metrics.weighted with
      | some r =>
          searchLoop guests constraints weights seatsPerTable fuel r.1 r.2
            (iterations + 1)
      | none => (plan, metrics, iterations + 1)

/-- `collectWarnings` from `optimizer.ts`: missing-company warnings first,
then unassigned-guest warnings. -/
def collectWarnings (guests : List Guest) (plan : SeatingPlan) :
    List String :=
  let w1 := (guests.filter (fun g => !(truthy g.company))).map
    (fun g => "Guest \"" ++ g.name ++ "\" has no company specified")
  let assigned := (plan.tables.map TableAssignment.guestIds).flatten
  let w2 := (guests.filter (fun g => !(assigned.contains g.id))).map
    (fun g => "Guest \"" ++ g.name ++ "\" was not assigned to any table")
  w1 ++ w2

/-- `createInfeasibleResult` from `optimizer.ts`. -/
def createInfeasibleResult (reason : String) : OptimizationResult :=
  { plan := { tables := [] },
    metrics := { novelty := 0, diversity := 0, balance := 0,
                 transaction := 0, weighted := 0 },
    explanations :=
      { perTable := [],
        overall := "Unable to create seating plan: " ++ reason,
        reasonCodes := [] },
    warnings := [reason], feasible := false, iterations := 0 }

/-- The JS `a || b` default applied to the feasibility reason (an absent or
empty reason falls back to the literal default). -/
def jsOrElse (o : Option String) (d : String) : String :=
  match o with
  | some s => if s == "" then d else s
  | none => d

/-- The plan produced by phase 1 of `optimize`: greedy initial assignment
followed by the repair pass when the initial validation fails. -/
def initialPlan (guests : List Guest) (constraints : List Constraint)
    (config : OptimizationConfig) : SeatingPlan :=
  let plan0 := (createInitialAssignment guests constraints config.tableCount
    config.seatsPerTable config.seed).1
  if (validateConstraints plan0 constraints guests).valid then plan0
  else repairAssignment plan0 constraints config.seatsPerTable

/-- `optimize` from `optimizer.ts`. -/
def optimize (guests : List Guest) (constraints : List Constraint)
    (weights : ObjectiveWeights) (config : OptimizationConfig) :
    OptimizationResult :=
  let feasibility := checkFeasibility guests constraints config.tableCount
    config.seatsPerTable
  if feasibility.feasible then
    let plan1 := initialPlan guests constraints config
    let metrics1 := calculateAllMetrics plan1 guests weights
    let searched := searchLoop guests constraints weights
      config.seatsPerTable config.maxIterations plan1 metrics1 0
    { plan := searched.1,
      metrics := searched.2.1,
      explanations := generateExplanations searched.1 guests searched.2.1
        constraints,
      warnings := collectWarnings guests searched.1,
      feasible := (validateConstraints searched.1 constraints guests).valid,
      iterations := searched.2.2 }
  else
    createInfeasibleResult (jsOrElse feasibility.reason
      "Infeasible constraints")

/-! ### Derived notions used to state the properties -/

/-- All guest ids seated in a list of tables, in table order. -/
def tablesIds (tables : List TableAssignment) : List String :=
  (tables.map TableAssignment.guestIds).flatten

/-- All guest ids seated in a plan. -/
def planIds (plan : SeatingPlan) : List String := tablesIds plan.tables

/-- Capacity invariant: every table seats at most `cap` guests. -/
def capOK (cap : Nat) (tables : List TableAssignment) : Prop :=
  ∀ t ∈ tables, t.guestIds.length ≤ cap

/-- The `MUST_SIT_TOGETHER` constraints, as filtered by
`createInitialAssignment`. -/
def mstConstraints (cs : List Constraint) : List Constraint :=
  cs.filter (fun c => c.type == ConstraintType.MUST_SIT_TOGETHER)

/-- The (tables, assignedGuests) state after the group-placement phase of
`createInitialAssignment`. -/
def stageAState (cs : List Constraint) (tc cap : Nat) :
    List TableAssignment × List String :=
  (mstConstraints cs).foldl (placeGroup cap) (initialTables tc, [])

/-- The shuffled guests still to seat after the group-placement phase of
`createInitialAssignment`. -/
def remainingGuests (guests : List Guest) (cs : List Constraint)
    (tc cap seed : Nat) : List Guest :=
  (shuffle seed (guests.filter (fun g =>
    !((stageAState cs tc cap).2.contains g.id)))).1

/-! ### Concrete inputs used as test vectors -/

/-- Four guests of one seniority level and one guest type. -/
def c1Guests : List Guest :=
  [{ id := "g1", name := "G1", seniority := some Seniority.JUNIOR,
     guestType := GuestType.NEUTRAL },
   { id := "g2", name := "G2", seniority := some Seniority.JUNIOR,
     guestType := GuestType.NEUTRAL },
   { id := "g3", name := "G3", seniority := some Seniority.JUNIOR,
     guestType := GuestType.NEUTRAL },
   { id := "g4", name := "G4", seniority := some Seniority.JUNIOR,
     guestType := GuestType.NEUTRAL }]

/-- A single table seating the four homogeneous guests. -/
def c1Plan : SeatingPlan :=
  { tables := [{ tableId := "table_1", guestIds := ["g1", "g2", "g3", "g4"] }] }

/-- Equal objective weights. -/
def wEqual : ObjectiveWeights :=
  { novelty := 0.25, diversity := 0.25, balance := 0.25, transaction := 0.25 }

/-- Three plain guests used to overflow a one-table room. -/
def w3Guests : List Guest :=
  [{ id := "a", name := "A", guestType := GuestType.NEUTRAL },
   { id := "b", name := "B", guestType := GuestType.NEUTRAL },
   { id := "c", name := "C", guestType := GuestType.NEUTRAL }]

/-- One table of two seats: infeasible for three guests. -/
def cfg1x2 : OptimizationConfig :=
  { tableCount := 1, seatsPerTable := 2, maxIterations := 5, seed := 42 }

/-- Two tables of two seats. -/
def cfg2x2 : OptimizationConfig :=
  { tableCount := 2, seatsPerTable := 2, maxIterations := 5, seed := 42 }

/-- Two buyers and two sellers from four distinct companies. -/
def bsGuests : List Guest :=
  [{ id := "b1", name := "B1", company := some "CoA",
     guestType := GuestType.BUYER },
   { id := "b2", name := "B2", company := some "CoB",
     guestType := GuestType.BUYER },
   { id := "s1", name := "S1", company := some "CoC",
     guestType := GuestType.SELLER },
   { id := "s2", name := "S2", company := some "CoD",
     guestType := GuestType.SELLER }]

/-- Three guests sharing a company next to one guest of another company. -/
def c10Guests : List Guest :=
  [{ id := "a1", name := "A1", company := some "Acme",
     guestType := GuestType.NEUTRAL },
   { id := "a2", name := "A2", company := some "Acme",
     guestType := GuestType.NEUTRAL },
   { id := "a3", name := "A3", company := some "Acme",
     guestType := GuestType.NEUTRAL },
   { id := "b1", name := "B1", company := some "Beta",
     guestType := GuestType.NEUTRAL }]

/-- One table seating the four `c10Guests`. -/
def c10Table : TableAssignment :=
  { tableId := "table_1", guestIds := ["a1", "a2", "a3", "b1"] }

/-- The single-table plan over `c10Guests`. -/
def c10Plan : SeatingPlan := { tables := [c10Table] }

/-- One table seating only the three `Acme` guests of `c10Guests`. -/
def c10bTable : TableAssignment :=
  { tableId := "table_1", guestIds := ["a1", "a2", "a3"] }

/-- The single-table plan seating only the three `Acme` guests. -/
def c10bPlan : SeatingPlan := { tables := [c10bTable] }

/-- Zero metrics record. -/
def zeroMetrics : PlanMetrics :=
  { novelty := 0, diversity := 0, balance := 0, transaction := 0,
    weighted := 0 }

/-- A `MUST_NOT_SIT_TOGETHER` constraint on two guests. -/
def c9Constraint : Constraint :=
  { id := "mn1", type := ConstraintType.MUST_NOT_SIT_TOGETHER,
    guestIds := ["a", "b"] }

/-- A plan deliberately seating the two forbidden guests together. -/
def c9Plan : SeatingPlan :=
  { tables := [{ tableId := "table_1", guestIds := ["a", "b"] },
               { tableId := "table_2", guestIds := ["c"] }] }

/-! ## Counting lemmas for the in-place list operations -/

theorem count_set_add {α : Type} [DecidableEq α] (l : List α) (i : Nat)
    (x y : α) (h : i < l.length) :
    (l.set i x).count y + (if l[i] = y then 1 else 0)
      = l.count y + (if x = y then 1 else 0) := by
  induction l generalizing i with
  | nil => simp at h
  | cons a l ih =>
    cases i with
    | zero =>
      simp only [List.set_cons_zero, List.count_cons, List.getElem_cons_zero,
        beq_iff_eq]
      split_ifs <;> omega
    | succ n =>
      have hn : n < l.length := by simpa using Nat.lt_of_succ_lt_succ h
      have := ih n hn
      simp only [List.set_cons_succ, List.count_cons, List.getElem_cons_succ,
        beq_iff_eq] at this ⊢
      split_ifs at this ⊢ <;> omega

theorem count_eraseIdx_add {α : Type} [DecidableEq α] (l : List α) (i : Nat)
    (y : α) (h : i < l.length) :
    (l.eraseIdx i).count y + (if l[i] = y then 1 else 0) = l.count y := by
  induction l generalizing i with
  | nil => simp at h
  | cons a l ih =>
    cases i with
    | zero =>
      simp only [List.eraseIdx_cons_zero, List.count_cons,
        List.getElem_cons_zero, beq_iff_eq]
    | succ n =>
      have hn : n < l.length := by simpa using Nat.lt_of_succ_lt_succ h
      have := ih n hn
      simp only [List.eraseIdx_cons_succ, List.count_cons,
        List.getElem_cons_succ, beq_iff_eq] at this ⊢
      split_ifs at this ⊢ <;> omega

theorem count_tablesIds_set_add (ts : List TableAssignment) (i : Nat)
    (t' : TableAssignment) (y : String) (h : i < ts.length) :
    (tablesIds (ts.set i t')).count y + ts[i].guestIds.count y
      = (tablesIds ts).count y + t'.guestIds.count y := by
  induction ts generalizing i with
  | nil => simp at h
  | cons a ts ih =>
    cases i with
    | zero =>
      simp only [List.set_cons_zero, tablesIds, List.map_cons,
        List.flatten_cons, List.count_append, List.getElem_cons_zero]
      omega
    | succ n =>
      have hn : n < ts.length := by simpa using Nat.lt_of_succ_lt_succ h
      have := ih n hn
      simp only [List.set_cons_succ, tablesIds, List.map_cons,
        List.flatten_cons, List.count_append, List.getElem_cons_succ] at this ⊢
      omega

theorem listSwap_perm {α : Type} [DecidableEq α] (l : List α) (i j : Nat) :
    (listSwap l i j).Perm l := by
  rcases hi : l[i]? with _ | a
  · simp [listSwap, hi]
  · rcases hj : l[j]? with _ | b
    · simp [listSwap, hi, hj]
    · have hswap : listSwap l i j = (l.set i b).set j a := by
        simp [listSwap, hi, hj]
      obtain ⟨hil, ha⟩ := List.getElem?_eq_some_iff.mp hi
      obtain ⟨hjl, hb⟩ := List.getElem?_eq_some_iff.mp hj
      rw [hswap]
      refine List.perm_iff_count.mpr (fun y => ?_)
      have hjl' : j < (l.set i b).length := by simpa using hjl
      have e1 := count_set_add (l.set i b) j a y hjl'
      have e2 := count_set_add l i b y hil
      have hsb : (l.set i b)[j] = b := by
        rw [List.getElem_set]
        split <;> simp [hb]
      rw [hsb] at e1
      rw [ha] at e2
      split_ifs at e1 e2 ⊢ <;> omega

theorem shuffleAux_perm {α : Type} [DecidableEq α] (s : Nat) (l : List α)
    (i : Nat) : (shuffleAux s l i).1.Perm l := by
  induction i generalizing s l with
  | zero => exact List.Perm.refl l
  | succ n ih =>
      simp only [shuffleAux]
      exact (ih _ _).trans (listSwap_perm _ _ _)

theorem shuffle_perm {α : Type} [DecidableEq α] (s : Nat) (l : List α) :
    (shuffle s l).1.Perm l :=
  shuffleAux_perm s l (l.length - 1)

/-! ## Lemmas about `pushAt` -/

theorem pushAt_length (ts : List TableAssignment) (i : Nat) (gid : String) :
    (pushAt ts i gid).length = ts.length := by
  unfold pushAt
  cases h : ts[i]? <;> simp

theorem pushAt_cons_succ (t : TableAssignment) (ts : List TableAssignment)
    (n : Nat) (gid : String) :
    pushAt (t :: ts) (n + 1) gid = t :: pushAt ts n gid := by
  unfold pushAt
  cases h : ts[n]? <;> simp [h]

theorem pushAt_oob (ts : List TableAssignment) (i : Nat) (gid : String)
    (h : ts.length ≤ i) : pushAt ts i gid = ts := by
  unfold pushAt
  rw [List.getElem?_eq_none h]

theorem tablesIds_cons (t : TableAssignment) (ts : List TableAssignment) :
    tablesIds (t :: ts) = t.guestIds ++ tablesIds ts := rfl

theorem tablesIds_pushAt_perm (ts : List TableAssignment) (i : Nat)
    (gid : String) (h : i < ts.length) :
    (tablesIds (pushAt ts i gid)).Perm (gid :: tablesIds ts) := by
  induction ts generalizing i with
  | nil => simp at h
  | cons t ts ih =>
    cases i with
    | zero =>
      have hpush : pushAt (t :: ts) 0 gid
          = { t with guestIds := t.guestIds ++ [gid] } :: ts := by
        unfold pushAt
        simp
      rw [hpush, tablesIds_cons, tablesIds_cons]
      show ((t.guestIds ++ [gid]) ++ tablesIds ts).Perm _
      rw [List.append_assoc]
      exact List.perm_middle
    | succ n =>
      have hn : n < ts.length := by simpa using Nat.lt_of_succ_lt_succ h
      rw [pushAt_cons_succ, tablesIds_cons, tablesIds_cons]
      exact (List.Perm.append_left _ (ih n hn)).trans List.perm_middle

theorem mem_pushAt (ts : List TableAssignment) (i : Nat) (gid : String)
    (t' : TableAssignment) (h : t' ∈ pushAt ts i gid) :
    t' ∈ ts ∨ ∃ t0 ∈ ts,
      t' = { t0 with guestIds := t0.guestIds ++ [gid] } := by
  unfold pushAt at h
  cases hg : ts[i]? with
  | none => rw [hg] at h; exact Or.inl h
  | some t0 =>
    rw [hg] at h
    obtain ⟨hlt, hval⟩ := List.getElem?_eq_some_iff.mp hg
    rcases List.mem_or_eq_of_mem_set h with h1 | h2
    · exact Or.inl h1
    · refine Or.inr ⟨t0, ?_, h2⟩
      rw [← hval]
      exact List.getElem_mem hlt

theorem capOK_pushAt (cap : Nat) (ts : List TableAssignment) (i : Nat)
    (gid : String) (hcap : capOK cap ts)
    (hroom : (ts.getD i { tableId := "", guestIds := [] }).guestIds.length
      < cap) :
    capOK cap (pushAt ts i gid) := by
  intro t' ht'
  unfold pushAt at ht'
  cases hg : ts[i]? with
  | none => rw [hg] at ht'; exact hcap t' ht'
  | some t0 =>
    rw [hg] at ht'
    obtain ⟨hlt, hval⟩ := List.getElem?_eq_some_iff.mp hg
    rcases List.mem_or_eq_of_mem_set ht' with h1 | h2
    · exact hcap t' h1
    · have hgetD : ts.getD i { tableId := "", guestIds := [] } = t0 := by
        rw [List.getD_eq_getElem ts _ hlt, hval]
      rw [hgetD] at hroom
      rw [h2]
      simpa using hroom

theorem mem_tablesIds_pushAt (ts : List TableAssignment) (i : Nat)
    (gid x : String) (h : x ∈ tablesIds ts) :
    x ∈ tablesIds (pushAt ts i gid) := by
  by_cases hi : i < ts.length
  · exact (tablesIds_pushAt_perm ts i gid hi).mem_iff.mpr
      (List.mem_cons_of_mem _ h)
  · rw [pushAt_oob ts i gid (Nat.le_of_not_lt hi)]
    exact h

/-! ## Lemmas about `swapGuests` and `moveGuest` -/

theorem setTable_length (ts : List TableAssignment) (i g : Nat) (x : String) :
    (match ts[i]? with
      | some t => ts.set i { t with guestIds := t.guestIds.set g x }
      | none => ts).length = ts.length := by
  cases h : ts[i]? <;> simp

theorem setTable_capOK (cap : Nat) (ts : List TableAssignment) (i g : Nat)
    (x : String) (hts : capOK cap ts) :
    capOK cap (match ts[i]? with
      | some t => ts.set i { t with guestIds := t.guestIds.set g x }
      | none => ts) := by
  intro u hu
  cases hg : ts[i]? with
  | none => rw [hg] at hu; exact hts u hu
  | some t0 =>
    rw [hg] at hu
    rcases List.mem_or_eq_of_mem_set hu with h1 | h2
    · exact hts u h1
    · have ht0 : t0 ∈ ts := by
        obtain ⟨hlt, hval⟩ := List.getElem?_eq_some_iff.mp hg
        rw [← hval]; exact List.getElem_mem hlt
      rw [h2]
      simpa using hts t0 ht0

theorem swapGuests_tables_length (plan : SeatingPlan) (t1 g1 t2 g2 : Nat) :
    (swapGuests plan t1 g1 t2 g2).tables.length = plan.tables.length := by
  unfold swapGuests
  simp only []
  rw [setTable_length, setTable_length]

theorem capOK_swapGuests (cap : Nat) (plan : SeatingPlan) (t1 g1 t2 g2 : Nat)
    (hcap : capOK cap plan.tables) :
    capOK cap (swapGuests plan t1 g1 t2 g2).tables := by
  unfold swapGuests
  simp only []
  exact setTable_capOK cap _ t2 g2 _ (setTable_capOK cap _ t1 g1 _ hcap)

theorem count_tablesIds_setIds_add (ts : List TableAssignment) (i : Nat)
    (ids : List String) (y : String) (h : i < ts.length) :
    (tablesIds (ts.set i { ts[i] with guestIds := ids })).count y
        + ts[i].guestIds.count y
      = (tablesIds ts).count y + ids.count y := by
  simpa using count_tablesIds_set_add ts i { ts[i] with guestIds := ids } y h

theorem planIds_swapGuests_perm (plan : SeatingPlan) (t1 g1 t2 g2 : Nat)
    (hne : t1 ≠ t2) (ht1 : t1 < plan.tables.length)
    (ht2 : t2 < plan.tables.length)
    (hg1 : g1 < plan.tables[t1].guestIds.length)
    (hg2 : g2 < plan.tables[t2].guestIds.length) :
    (planIds (swapGuests plan t1 g1 t2 g2)).Perm (planIds plan) := by
  have h1some : plan.tables[t1]? = some plan.tables[t1] := by
    simp [List.getElem?_eq_some_iff, ht1]
  have a_eq : ((plan.tables.getD t1 { tableId := "", guestIds := [] }).guestIds).getD g1 ""
      = plan.tables[t1].guestIds[g1] := by
    rw [List.getD_eq_getElem _ _ ht1, List.getD_eq_getElem _ _ hg1]
  have b_eq : ((plan.tables.getD t2 { tableId := "", guestIds := [] }).guestIds).getD g2 ""
      = plan.tables[t2].guestIds[g2] := by
    rw [List.getD_eq_getElem _ _ ht2, List.getD_eq_getElem _ _ hg2]
  have ht2s : t2 < (plan.tables.set t1
      { plan.tables[t1] with
        guestIds := plan.tables[t1].guestIds.set g1 plan.tables[t2].guestIds[g2] }).length := by
    simpa using ht2
  have hS1get : (plan.tables.set t1
      { plan.tables[t1] with
        guestIds := plan.tables[t1].guestIds.set g1 plan.tables[t2].guestIds[g2] })[t2]
      = plan.tables[t2] := by
    rw [List.getElem_set]
    simp [hne]
  have h2some : (plan.tables.set t1
      { plan.tables[t1] with
        guestIds := plan.tables[t1].guestIds.set g1 plan.tables[t2].guestIds[g2] })[t2]?
      = some plan.tables[t2] := by
    rw [List.getElem?_eq_some_iff]
    exact ⟨ht2s, hS1get⟩
  have hresult : swapGuests plan t1 g1 t2 g2 =
      { tables := (plan.tables.set t1
          { plan.tables[t1] with
            guestIds := plan.tables[t1].guestIds.set g1 plan.tables[t2].guestIds[g2] }).set t2
          { plan.tables[t2] with
            guestIds := plan.tables[t2].guestIds.set g2 plan.tables[t1].guestIds[g1] } } := by
    unfold swapGuests
    rw [a_eq, b_eq, h1some]
    simp only []
    rw [h2some]
  rw [hresult]
  refine List.perm_iff_count.mpr (fun y => ?_)
  have e1 := count_tablesIds_setIds_add plan.tables t1
    (plan.tables[t1].guestIds.set g1 plan.tables[t2].guestIds[g2]) y ht1
  have e3' := count_tablesIds_setIds_add
    (plan.tables.set t1
      { plan.tables[t1] with
        guestIds := plan.tables[t1].guestIds.set g1 plan.tables[t2].guestIds[g2] })
    t2 (plan.tables[t2].guestIds.set g2 plan.tables[t1].guestIds[g1]) y ht2s
  rw [hS1get] at e3'
  have e2 := count_set_add plan.tables[t1].guestIds g1
    plan.tables[t2].guestIds[g2] y hg1
  have e4 := count_set_add plan.tables[t2].guestIds g2
    plan.tables[t1].guestIds[g1] y hg2
  simp only [planIds] at e1 e3' ⊢
  split_ifs at e2 e4 <;> omega

theorem moveGuest_tables_length (plan : SeatingPlan) (f g dst : Nat) :
    (moveGuest plan f g dst).tables.length = plan.tables.length := by
  unfold moveGuest
  simp only []
  rw [pushAt_length]
  cases h : plan.tables[f]? <;> simp

theorem capOK_moveGuest (cap : Nat) (plan : SeatingPlan) (f g dst : Nat)
    (hcap : capOK cap plan.tables) (hne : f ≠ dst)
    (hroom : (plan.tables.getD dst { tableId := "", guestIds := [] }).guestIds.length < cap) :
    capOK cap (moveGuest plan f g dst).tables := by
  unfold moveGuest
  simp only []
  refine capOK_pushAt cap _ dst _ ?_ ?_
  · intro u hu
    cases hf : plan.tables[f]? with
    | none => rw [hf] at hu; exact hcap u hu
    | some t0 =>
      rw [hf] at hu
      rcases List.mem_or_eq_of_mem_set hu with h1 | h2
      · exact hcap u h1
      · have ht0 : t0 ∈ plan.tables := by
          obtain ⟨hlt, hval⟩ := List.getElem?_eq_some_iff.mp hf
          rw [← hval]; exact List.getElem_mem hlt
        rw [h2]
        simp only []
        exact Nat.le_trans (List.length_eraseIdx_le _ _) (hcap t0 ht0)
  · cases hf : plan.tables[f]? with
    | none => exact hroom
    | some t0 =>
      show ((plan.tables.set f
          { t0 with guestIds := t0.guestIds.eraseIdx g }).getD dst
          { tableId := "", guestIds := [] }).guestIds.length < cap
      by_cases hto : dst < plan.tables.length
      · have heq : ((plan.tables.set f
            { t0 with guestIds := t0.guestIds.eraseIdx g }).getD dst
            { tableId := "", guestIds := [] })
            = plan.tables.getD dst { tableId := "", guestIds := [] } := by
          rw [List.getD_eq_getElem _ _ (by simpa using hto),
            List.getD_eq_getElem _ _ hto]
          rw [List.getElem_set, if_neg hne]
        rw [heq]
        exact hroom
      · have h1 : (plan.tables.set f
            { t0 with guestIds := t0.guestIds.eraseIdx g }).length ≤ dst := by
          simpa using Nat.le_of_not_lt hto
        rw [List.getD_eq_default _ _ h1]
        rw [List.getD_eq_default _ _ (Nat.le_of_not_lt hto)] at hroom
        exact hroom

theorem planIds_moveGuest_perm (plan : SeatingPlan) (f g dst : Nat)
    (hne : f ≠ dst) (hf : f < plan.tables.length)
    (hto : dst < plan.tables.length)
    (hg : g < plan.tables[f].guestIds.length) :
    (planIds (moveGuest plan f g dst)).Perm (planIds plan) := by
  have hfsome : plan.tables[f]? = some plan.tables[f] := by
    simp [List.getElem?_eq_some_iff, hf]
  have gid_eq : ((plan.tables.getD f { tableId := "", guestIds := [] }).guestIds).getD g ""
      = plan.tables[f].guestIds[g] := by
    rw [List.getD_eq_getElem _ _ hf, List.getD_eq_getElem _ _ hg]
  have hresult : moveGuest plan f g dst =
      { tables := pushAt (plan.tables.set f
          { plan.tables[f] with guestIds := plan.tables[f].guestIds.eraseIdx g })
          dst plan.tables[f].guestIds[g] } := by
    unfold moveGuest
    rw [gid_eq, hfsome]
  rw [hresult]
  have hto' : dst < (plan.tables.set f
      { plan.tables[f] with
        guestIds := plan.tables[f].guestIds.eraseIdx g }).length := by
    simpa using hto
  refine List.Perm.trans (tablesIds_pushAt_perm _ dst _ hto') ?_
  refine List.perm_iff_count.mpr (fun y => ?_)
  have e1 := count_tablesIds_setIds_add plan.tables f
    (plan.tables[f].guestIds.eraseIdx g) y hf
  have e2 := count_eraseIdx_add plan.tables[f].guestIds g y hg
  simp only [planIds, List.count_cons, beq_iff_eq] at e1 e2 ⊢
  split_ifs at e2 ⊢ <;> omega

/-! ## Lemmas about the JS `Map` model -/

theorem mapGet_nil {α : Type} (k : String) :
    mapGet ([] : List (String × α)) k = none := rfl

theorem find?_overwrite_self {α : Type} (m : List (String × α)) (k : String)
    (v : α) :
    List.find? (fun p => p.1 == k)
        (m.map (fun p => if p.1 == k then (k, v) else p))
      = if m.any (fun p => p.1 == k) then some (k, v) else none := by
  induction m with
  | nil => simp
  | cons q m ih =>
    simp only [List.map_cons]
    by_cases hq : q.1 = k
    · have hfq : (if (q.1 == k) = true then (k, v) else q) = (k, v) := by
        simp [hq]
      rw [hfq, List.find?_cons_of_pos _ (by simp)]
      simp [hq]
    · have hfq : (if (q.1 == k) = true then (k, v) else q) = q := by
        simp [hq]
      rw [hfq, List.find?_cons_of_neg _ (by simpa using hq), ih]
      have hqb : (q.1 == k) = false := by simpa using hq
      rw [List.any_cons, hqb, Bool.false_or]

theorem find?_overwrite_ne {α : Type} (m : List (String × α)) (k k' : String)
    (v : α) (h : k' ≠ k) :
    List.find? (fun p => p.1 == k')
        (m.map (fun p => if p.1 == k then (k, v) else p))
      = List.find? (fun p => p.1 == k') m := by
  induction m with
  | nil => simp
  | cons q m ih =>
    simp only [List.map_cons]
    by_cases hq : q.1 = k
    · have hfq : (if (q.1 == k) = true then (k, v) else q) = (k, v) := by
        simp [hq]
      rw [hfq, List.find?_cons_of_neg _ (by simpa using Ne.symm h),
        List.find?_cons_of_neg _ (by
          simp only [beq_iff_eq, hq]
          exact fun hc => h hc.symm)]
      exact ih
    · have hfq : (if (q.1 == k) = true then (k, v) else q) = q := by
        simp [hq]
      rw [hfq]
      by_cases hq' : q.1 = k'
      · rw [List.find?_cons_of_pos _ (by simpa using hq'),
          List.find?_cons_of_pos _ (by simpa using hq')]
      · rw [List.find?_cons_of_neg _ (by simpa using hq'),
          List.find?_cons_of_neg _ (by simpa using hq')]
        exact ih

theorem mapGet_mapSet_self {α : Type} (m : List (String × α)) (k : String)
    (v : α) : mapGet (mapSet m k v) k = some v := by
  unfold mapSet mapGet
  by_cases hany : (m.any (fun p => p.1 == k)) = true
  · rw [if_pos hany, find?_overwrite_self, if_pos hany]
    rfl
  · rw [if_neg hany, List.find?_append]
    have hnone : m.find? (fun p => p.1 == k) = none := by
      rw [List.find?_eq_none]
      intro p hp hc
      exact hany (List.any_eq_true.mpr ⟨p, hp, hc⟩)
    rw [hnone]
    simp

theorem mapGet_mapSet_ne {α : Type} (m : List (String × α)) (k k' : String)
    (v : α) (h : k' ≠ k) : mapGet (mapSet m k v) k' = mapGet m k' := by
  unfold mapSet mapGet
  by_cases hany : (m.any (fun p => p.1 == k)) = true
  · rw [if_pos hany, find?_overwrite_ne _ _ _ _ h]
  · rw [if_neg hany, List.find?_append]
    cases hfind : m.find? (fun p => p.1 == k') with
    | some p => simp
    | none =>
      simp only [Option.none_or]
      rw [List.find?_cons_of_neg _ (by simpa using Ne.symm h)]
      simp

theorem mem_mapSet {α : Type} (m : List (String × α)) (k : String) (v : α)
    (p : String × α) :
    p ∈ mapSet m k v ↔ p = (k, v) ∨ (p.1 ≠ k ∧ p ∈ m) := by
  unfold mapSet
  by_cases hany : (m.any (fun p => p.1 == k)) = true
  · rw [if_pos hany]
    simp only [List.any_eq_true, beq_iff_eq] at hany
    obtain ⟨q, hq, hqk⟩ := hany
    constructor
    · intro hp
      obtain ⟨r, hr, hrp⟩ := List.mem_map.mp hp
      by_cases hrk : r.1 = k
      · left
        rw [← hrp]
        simp [hrk]
      · right
        rw [← hrp]
        simp only [beq_iff_eq, if_neg hrk]
        exact ⟨hrk, hr⟩
    · intro hp
      rcases hp with h1 | ⟨h1, h2⟩
      · refine List.mem_map.mpr ⟨q, hq, ?_⟩
        simp [hqk, h1]
      · refine List.mem_map.mpr ⟨p, h2, ?_⟩
        simp [h1]
  · rw [if_neg hany]
    simp only [List.any_eq_true, beq_iff_eq] at hany
    push_neg at hany
    simp only [List.mem_append, List.mem_singleton]
    constructor
    · intro hp
      rcases hp with h1 | h1
      · exact Or.inr ⟨fun hc => hany p h1 hc, h1⟩
      · exact Or.inl h1
    · intro hp
      rcases hp with h1 | ⟨h1, h2⟩
      · exact Or.inr h1
      · exact Or.inl h2

/-! ## Characterization of `guestToTable` on duplicate-free plans -/

theorem inner_g2t_fold_not_mem (gids : List String) (tid : String)
    (m : List (String × String)) (k : String) (h : k ∉ gids) :
    mapGet (gids.foldl (fun m' gid => mapSet m' gid tid) m) k = mapGet m k := by
  induction gids generalizing m with
  | nil => simp
  | cons g gids ih =>
    simp only [List.foldl_cons]
    rw [ih _ (fun hc => h (List.mem_cons_of_mem _ hc))]
    exact mapGet_mapSet_ne _ _ _ _ (fun hc => h (hc ▸ List.mem_cons_self _ _))

theorem inner_g2t_fold_mem (gids : List String) (tid : String)
    (m : List (String × String)) (k : String) (h : k ∈ gids) :
    mapGet (gids.foldl (fun m' gid => mapSet m' gid tid) m) k = some tid := by
  induction gids generalizing m with
  | nil => simp at h
  | cons g gids ih =>
    simp only [List.foldl_cons]
    by_cases hk : k ∈ gids
    · exact ih _ hk
    · have hkg : k = g := by
        rcases List.mem_cons.mp h with h1 | h1
        · exact h1
        · exact absurd h1 hk
      subst hkg
      rw [inner_g2t_fold_not_mem _ _ _ _ hk]
      exact mapGet_mapSet_self _ _ _

theorem g2t_fold_of_not_mem (ts : List TableAssignment) (k : String)
    (m : List (String × String)) (h : k ∉ tablesIds ts) :
    mapGet (ts.foldl (fun m' u =>
      u.guestIds.foldl (fun m'' gid => mapSet m'' gid u.tableId) m') m) k
      = mapGet m k := by
  induction ts generalizing m with
  | nil => simp
  | cons u ts ih =>
    simp only [List.foldl_cons]
    rw [tablesIds_cons] at h
    rw [ih _ (fun hc => h (List.mem_append_right _ hc))]
    exact inner_g2t_fold_not_mem _ _ _ _
      (fun hc => h (List.mem_append_left _ hc))

theorem g2t_fold_of_mem (ts : List TableAssignment) (t : TableAssignment)
    (k : String) (m : List (String × String)) (hnd : (tablesIds ts).Nodup)
    (ht : t ∈ ts) (hk : k ∈ t.guestIds) :
    mapGet (ts.foldl (fun m' u =>
      u.guestIds.foldl (fun m'' gid => mapSet m'' gid u.tableId) m') m) k
      = some t.tableId := by
  induction ts generalizing m with
  | nil => simp at ht
  | cons u ts ih =>
    simp only [List.foldl_cons]
    rw [tablesIds_cons] at hnd
    rcases List.mem_cons.mp ht with h1 | h1
    · subst h1
      have hnots : k ∉ tablesIds ts :=
        fun hc => (List.disjoint_of_nodup_append hnd) hk hc
      rw [g2t_fold_of_not_mem ts k _ hnots]
      exact inner_g2t_fold_mem _ _ _ _ hk
    · exact ih _ hnd.of_append_right h1

theorem guestToTable_of_mem (plan : SeatingPlan) (t : TableAssignment)
    (k : String) (hnd : (planIds plan).Nodup) (ht : t ∈ plan.tables)
    (hk : k ∈ t.guestIds) :
    mapGet (guestToTable plan) k = some t.tableId :=
  g2t_fold_of_mem plan.tables t k [] hnd ht hk

theorem guestToTable_of_not_mem (plan : SeatingPlan) (k : String)
    (h : k ∉ planIds plan) : mapGet (guestToTable plan) k = none := by
  rw [guestToTable, g2t_fold_of_not_mem plan.tables k [] h]
  rfl

/-! ## Feasibility checker characterization -/

theorem checkFeasibility_feasible_iff (guests : List Guest)
    (constraints : List Constraint) (tc spt : Nat) :
    (checkFeasibility guests constraints tc spt).feasible = true ↔
      guests.length ≤ tc * spt ∧
      ∀ c ∈ constraints, c.type = ConstraintType.MUST_SIT_TOGETHER →
        c.guestIds.length ≤ spt := by
  unfold checkFeasibility
  by_cases hcap : tc * spt < guests.length
  · rw [if_pos hcap]
    simp only [Bool.false_eq_true, false_iff, not_and]
    intro h
    omega
  · rw [if_neg hcap]
    cases hfind : constraints.find? (fun c =>
        c.type == ConstraintType.MUST_SIT_TOGETHER &&
        spt < c.guestIds.length) with
    | some c =>
      have hc := List.find?_some hfind
      have hmem := List.mem_of_find?_eq_some hfind
      simp only [Bool.and_eq_true, beq_iff_eq, decide_eq_true_eq] at hc
      simp only [Bool.false_eq_true, false_iff, not_and]
      intro _ hall
      exact absurd (hall c hmem hc.1) (by omega)
    | none =>
      simp only [true_iff]
      refine ⟨by omega, fun c hc htype => ?_⟩
      have := List.find?_eq_none.mp hfind c hc
      simp only [Bool.and_eq_true, beq_iff_eq, decide_eq_true_eq, not_and] at this
      exact Nat.le_of_not_lt (this htype)

theorem checkFeasibility_cap_reason (guests : List Guest)
    (constraints : List Constraint) (tc spt : Nat)
    (h : tc * spt < guests.length) :
    checkFeasibility guests constraints tc spt =
      { feasible := false,
        reason := some ("Not enough seats: " ++ toString guests.length ++
          " guests but only " ++ toString (tc * spt) ++ " seats") } := by
  unfold checkFeasibility
  rw [if_pos h]

theorem checkFeasibility_group_reason (guests : List Guest)
    (constraints : List Constraint) (tc spt : Nat) (c : Constraint)
    (hcap : guests.length ≤ tc * spt)
    (hfind : constraints.find? (fun c =>
      c.type == ConstraintType.MUST_SIT_TOGETHER &&
      spt < c.guestIds.length) = some c) :
    checkFeasibility guests constraints tc spt =
      { feasible := false,
        reason := some ("MUST_SIT_TOGETHER constraint has " ++
          toString c.guestIds.length ++ " guests but tables only have " ++
          toString spt ++ " seats") } := by
  unfold checkFeasibility
  rw [if_neg (by omega), hfind]

/-! ## Local search monotonicity -/

theorem findImprovement_gt (guests : List Guest)
    (constraints : List Constraint) (weights : ObjectiveWeights)
    (cap : Nat) (plan : SeatingPlan) (current : Rat)
    (r : SeatingPlan × PlanMetrics)
    (h : findImprovement guests constraints weights cap plan current
      = some r) :
    current < r.2.weighted := by
  have key : ∀ {β : Type} (l : List β)
      (f : β → Option (SeatingPlan × PlanMetrics)),
      (∀ c r', f c = some r' → current < r'.2.weighted) →
      l.findSome? f = some r → current < r.2.weighted := by
    intro β l f hf hsome
    obtain ⟨a, _, ha⟩ := List.exists_of_findSome?_eq_some hsome
    exact hf a r ha
  unfold findImprovement at h
  cases htry : (swapCandidates plan).findSome? (fun c =>
      let newPlan := swapGuests plan c.1 c.2.1 c.2.2.1 c.2.2.2
      if (validateConstraints newPlan constraints guests).valid then
        let newMetrics := calculateAllMetrics newPlan guests weights
        if current < newMetrics.weighted then some (newPlan, newMetrics)
        else none
      else none) with
  | some r' =>
    rw [htry] at h
    simp only [Option.some.injEq] at h
    subst h
    refine key _ _ ?_ htry
    intro c r' h'
    simp only [] at h'
    split_ifs at h' with h1 h2
    · simp only [Option.some.injEq] at h'
      subst h'
      exact h2
  | none =>
    rw [htry] at h
    simp only [] at h
    refine key _ _ ?_ h
    intro c r' h'
    simp only [] at h'
    split_ifs at h' with h1 h2
    · simp only [Option.some.injEq] at h'
      subst h'
      exact h2

theorem searchLoop_weighted_le (guests : List Guest)
    (constraints : List Constraint) (weights : ObjectiveWeights) (cap : Nat)
    (fuel : Nat) (plan : SeatingPlan) (metrics : PlanMetrics)
    (iterations : Nat) :
    metrics.weighted ≤ (searchLoop guests constraints weights cap fuel plan
      metrics iterations).2.1.weighted := by
  induction fuel generalizing plan metrics iterations with
  | zero => exact le_refl _
  | succ n ih =>
    simp only [searchLoop]
    cases hfi : findImprovement guests constraints weights cap plan
        metrics.weighted with
    | some r =>
      exact le_trans
        (le_of_lt (findImprovement_gt guests constraints weights cap plan
          metrics.weighted r hfi)) (ih r.1 r.2 (iterations + 1))
    | none => exact le_refl _

/-! ## Claim theorems (part 1) -/

/-- C1: the specification says the four objective scores all lie in the
closed interval `[0, 1]`, and in particular that `calculateBalanceScore` is
never negative.  The code violates this: a table of four guests sharing one
seniority level and one guest type yields a balance score of `-3/4`.  This
contradicts the code's own documentation of `PlanMetrics.balance` as a
"Score for Objective C (0-1)" in `types.ts`. -/
theorem c1_balance_score_negative :
    calculateBalanceScore c1Plan c1Guests = -(3/4) ∧
    calculateBalanceScore c1Plan c1Guests < 0 := by
  with_unfolding_all decide

/-- C2: `checkFeasibility` returns `feasible = true` iff the guest count
fits the total capacity and every `MUST_SIT_TOGETHER` constraint's guest-id
set fits one table; on a capacity failure the reason reports both counts
(and capacity is checked before group sizes, so it wins when both fail), and
on a group-size failure the reason names the violating size and the
capacity. -/
theorem c2_checkFeasibility_spec (guests : List Guest)
    (constraints : List Constraint) (tc spt : Nat)
    (hset : ∀ c ∈ constraints, c.guestIds.Nodup) :
    ((checkFeasibility guests constraints tc spt).feasible = true ↔
      guests.length ≤ tc * spt ∧
      ∀ c ∈ constraints, c.type = ConstraintType.MUST_SIT_TOGETHER →
        c.guestIds.toFinset.card ≤ spt) ∧
    (tc * spt < guests.length →
      checkFeasibility guests constraints tc spt =
        { feasible := false,
          reason := some ("Not enough seats: " ++ toString guests.length ++
            " guests but only " ++ toString (tc * spt) ++ " seats") }) ∧
    (guests.length ≤ tc * spt →
      (checkFeasibility guests constraints tc spt).feasible = false →
      ∃ c ∈ constraints, c.type = ConstraintType.MUST_SIT_TOGETHER ∧
        spt < c.guestIds.toFinset.card ∧
        checkFeasibility guests constraints tc spt =
          { feasible := false,
            reason := some ("MUST_SIT_TOGETHER constraint has " ++
              toString c.guestIds.length ++
              " guests but tables only have " ++ toString spt ++
              " seats") }) := by
  have hcard : ∀ c ∈ constraints, c.guestIds.toFinset.card
      = c.guestIds.length := fun c hc =>
    List.toFinset_card_of_nodup (hset c hc)
  refine ⟨?_, ?_, ?_⟩
  · rw [checkFeasibility_feasible_iff]
    constructor
    · rintro ⟨h1, h2⟩
      exact ⟨h1, fun c hc ht => (hcard c hc) ▸ h2 c hc ht⟩
    · rintro ⟨h1, h2⟩
      exact ⟨h1, fun c hc ht => (hcard c hc) ▸ h2 c hc ht⟩
  · exact checkFeasibility_cap_reason guests constraints tc spt
  · intro hcap hfalse
    cases hfind : constraints.find? (fun c =>
        c.type == ConstraintType.MUST_SIT_TOGETHER &&
        spt < c.guestIds.length) with
    | none =>
      exfalso
      have : (checkFeasibility guests constraints tc spt).feasible
          = true := by
        unfold checkFeasibility
        rw [if_neg (by omega), hfind]
      rw [this] at hfalse
      exact Bool.true_eq_false.mp hfalse
    | some c =>
      have hc := List.find?_some hfind
      have hmem := List.mem_of_find?_eq_some hfind
      simp only [Bool.and_eq_true, beq_iff_eq, decide_eq_true_eq] at hc
      refine ⟨c, hmem, hc.1, ?_, ?_⟩
      · rw [hcard c hmem]
        exact hc.2
      · exact checkFeasibility_group_reason guests constraints tc spt c
          hcap hfind

/-- Witness for C2 at a concrete input: three guests, no constraints, two
tables of two seats. -/
theorem c2_checkFeasibility_spec_witness :
    (checkFeasibility w3Guests [] 2 2).feasible = true :=
  ((c2_checkFeasibility_spec w3Guests [] 2 2 (by decide)).1).mpr
    ⟨by decide, by decide⟩

/-- C6: for every feasible input, the weighted composite score of the plan
returned by the local search is at least the weighted composite score of
the initial post-repair plan, because the search only ever replaces the
current plan by one of strictly larger weighted score. -/
theorem c6_local_search_monotone (guests : List Guest)
    (constraints : List Constraint) (weights : ObjectiveWeights)
    (config : OptimizationConfig)
    (h : (checkFeasibility guests constraints config.tableCount
      config.seatsPerTable).feasible = true) :
    (calculateAllMetrics (initialPlan guests constraints config) guests
      weights).weighted
      ≤ (optimize guests constraints weights config).metrics.weighted := by
  simp only [optimize, h, if_true]
  exact searchLoop_weighted_le guests constraints weights
    config.seatsPerTable config.maxIterations _ _ 0

/-- Witness for C6: the buyer-seller scenario on two tables of two seats. -/
theorem c6_local_search_monotone_witness :
    (checkFeasibility bsGuests [] cfg2x2.tableCount
      cfg2x2.seatsPerTable).feasible = true ∧
    (calculateAllMetrics (initialPlan bsGuests [] cfg2x2) bsGuests
      wEqual).weighted
      ≤ (optimize bsGuests [] wEqual cfg2x2).metrics.weighted :=
  ⟨by decide, c6_local_search_monotone bsGuests [] wEqual cfg2x2 (by decide)⟩

/-- C7: `optimize` is deterministic; two invocations on equal guests,
constraints, weights and configuration (including the seed) return equal
results, since the embedded engine threads all of its state (including the
seeded random source) explicitly. -/
theorem c7_optimize_deterministic (guestsA guestsB : List Guest)
    (constraintsA constraintsB : List Constraint)
    (weightsA weightsB : ObjectiveWeights)
    (configA configB : OptimizationConfig) (hg : guestsA = guestsB)
    (hc : constraintsA = constraintsB) (hw : weightsA = weightsB)
    (hk : configA = configB) :
    optimize guestsA constraintsA weightsA configA
      = optimize guestsB constraintsB weightsB configB := by
  subst hg; subst hc; subst hw; subst hk
  rfl

/-- Witness for C7 at a concrete input. -/
theorem c7_optimize_deterministic_witness :
    optimize bsGuests [] wEqual cfg2x2 = optimize bsGuests [] wEqual cfg2x2 :=
  c7_optimize_deterministic bsGuests bsGuests [] [] wEqual wEqual cfg2x2
    cfg2x2 rfl rfl rfl rfl

/-- C8: when `checkFeasibility` reports infeasible, `optimize` returns a
terminal result with an empty table list, all five metric fields zero,
exactly one warning carrying the infeasibility reason, `feasible = false`
and an iteration count of zero, without attempting any assignment (the
embedding is total, so no exception is possible). -/
theorem c8_infeasible_result (guests : List Guest)
    (constraints : List Constraint) (weights : ObjectiveWeights)
    (config : OptimizationConfig)
    (h : (checkFeasibility guests constraints config.tableCount
      config.seatsPerTable).feasible = false) :
    (optimize guests constraints weights config).plan.tables = [] ∧
    (optimize guests constraints weights config).metrics = zeroMetrics ∧
    (optimize guests constraints weights config).warnings =
      [jsOrElse (checkFeasibility guests constraints config.tableCount
        config.seatsPerTable).reason "Infeasible constraints"] ∧
    (optimize guests constraints weights config).feasible = false ∧
    (optimize guests constraints weights config).iterations = 0 := by
  have hopt : optimize guests constraints weights config =
      createInfeasibleResult (jsOrElse (checkFeasibility guests constraints
        config.tableCount config.seatsPerTable).reason
        "Infeasible constraints") := by
    simp only [optimize, h, Bool.false_eq_true, if_false]
  rw [hopt]
  refine ⟨rfl, rfl, rfl, rfl, rfl⟩

/-- Witness for C8: three guests cannot fit one table of two seats; the
reason string reports the counts. -/
theorem c8_infeasible_result_witness :
    (checkFeasibility w3Guests [] cfg1x2.tableCount
      cfg1x2.seatsPerTable).feasible = false ∧
    ((optimize w3Guests [] wEqual cfg1x2).plan.tables = [] ∧
     (optimize w3Guests [] wEqual cfg1x2).metrics = zeroMetrics ∧
     (optimize w3Guests [] wEqual cfg1x2).warnings =
       [jsOrElse (checkFeasibility w3Guests [] cfg1x2.tableCount
         cfg1x2.seatsPerTable).reason "Infeasible constraints"] ∧
     (optimize w3Guests [] wEqual cfg1x2).feasible = false ∧
     (optimize w3Guests [] wEqual cfg1x2).iterations = 0) :=
  ⟨by decide, c8_infeasible_result w3Guests [] wEqual cfg1x2 (by decide)⟩

/-! ## Association-list facts for the must-not-sit-together check -/

theorem mapSet_keys_of_present {α : Type} (m : List (String × α))
    (k : String) (v : α) (h : (m.any (fun p => p.1 == k)) = true) :
    (mapSet m k v).map Prod.fst = m.map Prod.fst := by
  unfold mapSet
  rw [if_pos h, List.map_map]
  refine List.map_congr_left (fun p _ => ?_)
  by_cases hp : p.1 = k
  · simp [hp]
  · simp [hp]

theorem mapSet_keys_of_absent {α : Type} (m : List (String × α))
    (k : String) (v : α) (h : ¬(m.any (fun p => p.1 == k)) = true) :
    (mapSet m k v).map Prod.fst = m.map Prod.fst ++ [k] := by
  unfold mapSet
  rw [if_neg h, List.map_append]
  rfl

theorem mapSet_keys_nodup {α : Type} (m : List (String × α)) (k : String)
    (v : α) (h : (m.map Prod.fst).Nodup) :
    ((mapSet m k v).map Prod.fst).Nodup := by
  by_cases hany : (m.any (fun p => p.1 == k)) = true
  · rw [mapSet_keys_of_present m k v hany]
    exact h
  · rw [mapSet_keys_of_absent m k v hany]
    refine List.Nodup.append h (List.nodup_singleton k) ?_
    intro x hx hk
    rw [List.mem_singleton] at hk
    subst hk
    obtain ⟨p, hp, hpk⟩ := List.mem_map.mp hx
    exact hany (List.any_eq_true.mpr ⟨p, hp, by simp [hpk]⟩)

theorem mapGet_eq_some_of_mem {α : Type} (m : List (String × α))
    (p : String × α) (hnd : (m.map Prod.fst).Nodup) (hp : p ∈ m) :
    mapGet m p.1 = some p.2 := by
  induction m with
  | nil => simp at hp
  | cons q m ih =>
    rw [List.map_cons] at hnd
    rcases List.mem_cons.mp hp with h1 | h1
    · subst h1
      unfold mapGet
      rw [List.find?_cons_of_pos _ (by simp)]
      rfl
    · have hne : p.1 ≠ q.1 := by
        intro hc
        have : q.1 ∈ m.map Prod.fst := hc ▸ List.mem_map_of_mem Prod.fst h1
        exact (List.nodup_cons.mp hnd).1 this
      unfold mapGet
      rw [List.find?_cons_of_neg _ (by simpa using Ne.symm hne)]
      exact ih (List.nodup_cons.mp hnd).2 h1

theorem mem_of_mapGet_eq_some {α : Type} (m : List (String × α))
    (k : String) (v : α) (h : mapGet m k = some v) : (k, v) ∈ m := by
  unfold mapGet at h
  cases hf : m.find? (fun p => p.1 == k) with
  | none => rw [hf] at h; simp at h
  | some p =>
    rw [hf] at h
    have hmem := List.mem_of_find?_eq_some hf
    have hkey := List.find?_some hf
    simp only [beq_iff_eq] at hkey
    simp at h
    have : p = (k, v) := Prod.ext hkey h
    exact this ▸ hmem

/-! ## Characterization of the must-not-sit-together groups fold -/

theorem groups_fold_spec (g2t : List (String × String)) (gids : List String)
    (m : List (String × List String)) (pre : List String)
    (hm : ∀ tid, mapGet m tid =
      (if (pre.filter (fun g => mapGet g2t g == some tid)).isEmpty then none
       else some (pre.filter (fun g => mapGet g2t g == some tid)))) :
    ∀ tid, mapGet (gids.foldl (fun m' gid =>
        match mapGet g2t gid with
        | none => m'
        | some tid' =>
            mapSet m' tid' ((mapGet m' tid').getD [] ++ [gid])) m) tid =
      (if ((pre ++ gids).filter
          (fun g => mapGet g2t g == some tid)).isEmpty then none
       else some ((pre ++ gids).filter
          (fun g => mapGet g2t g == some tid))) := by
  induction gids generalizing m pre with
  | nil =>
    intro tid
    simpa using hm tid
  | cons g gids ih =>
    intro tid
    simp only [List.foldl_cons]
    have hshift : pre ++ g :: gids = (pre ++ [g]) ++ gids := by simp
    rw [hshift]
    cases hg : mapGet g2t g with
    | none =>
      refine ih _ (pre ++ [g]) (fun tid' => ?_) tid
      have hfe : (pre ++ [g]).filter (fun x => mapGet g2t x == some tid')
          = pre.filter (fun x => mapGet g2t x == some tid') := by
        rw [List.filter_append]
        simp [hg]
      rw [hfe]
      exact hm tid'
    | some tid0 =>
      refine ih _ (pre ++ [g]) (fun tid' => ?_) tid
      by_cases htid' : tid' = tid0
      · subst htid'
        rw [mapGet_mapSet_self]
        have hfe : (pre ++ [g]).filter (fun x => mapGet g2t x == some tid')
            = pre.filter (fun x => mapGet g2t x == some tid') ++ [g] := by
          rw [List.filter_append]
          simp [hg]
        rw [hfe]
        rw [hm tid']
        have hne : ((pre.filter (fun x => mapGet g2t x == some tid')
            ++ [g]).isEmpty) = false := by simp
        rw [hne]
        simp only [Bool.false_eq_true, if_false]
        cases hemp : (pre.filter
            (fun x => mapGet g2t x == some tid')).isEmpty with
        | true =>
          simp [List.isEmpty_iff.mp hemp]
        | false =>
          simp
      · rw [mapGet_mapSet_ne _ _ _ _ htid']
        have hfe : (pre ++ [g]).filter (fun x => mapGet g2t x == some tid')
            = pre.filter (fun x => mapGet g2t x == some tid') := by
          rw [List.filter_append]
          simp only [List.filter_cons, List.filter_nil, hg]
          have : ((some tid0 == some tid') : Bool) = false := by
            simp
            exact fun hc => htid' hc.symm
          simp [this]
        rw [hfe]
        exact hm tid'

theorem groups_fold_keys_nodup (g2t : List (String × String))
    (gids : List String) (m : List (String × List String))
    (hm : (m.map Prod.fst).Nodup) :
    ((gids.foldl (fun m' gid =>
        match mapGet g2t gid with
        | none => m'
        | some tid' =>
            mapSet m' tid' ((mapGet m' tid').getD [] ++ [gid])) m).map
      Prod.fst).Nodup := by
  induction gids generalizing m with
  | nil => exact hm
  | cons g gids ih =>
    simp only [List.foldl_cons]
    cases hg : mapGet g2t g with
    | none => exact ih _ hm
    | some tid0 => exact ih _ (mapSet_keys_nodup _ _ _ hm)

/-! ## Bridging tables and the guest-to-table map -/

theorem g2t_some_exists (plan : SeatingPlan) (g tid : String)
    (hnd : (planIds plan).Nodup)
    (h : mapGet (guestToTable plan) g = some tid) :
    ∃ t ∈ plan.tables, t.tableId = tid ∧ g ∈ t.guestIds := by
  by_cases hmem : g ∈ planIds plan
  · simp only [planIds, tablesIds, List.mem_flatten] at hmem
    obtain ⟨l, hl, hgl⟩ := hmem
    obtain ⟨t, ht, htl⟩ := List.mem_map.mp hl
    refine ⟨t, ht, ?_, htl ▸ hgl⟩
    have := guestToTable_of_mem plan t g hnd ht (htl ▸ hgl)
    rw [this] at h
    exact (Option.some.injEq _ _).mp h
  · rw [guestToTable_of_not_mem plan g hmem] at h
    simp at h

theorem mem_iff_g2t (plan : SeatingPlan) (t : TableAssignment) (g : String)
    (hnd : (planIds plan).Nodup)
    (htid : (plan.tables.map TableAssignment.tableId).Nodup)
    (ht : t ∈ plan.tables) :
    g ∈ t.guestIds ↔ mapGet (guestToTable plan) g = some t.tableId := by
  constructor
  · exact guestToTable_of_mem plan t g hnd ht
  · intro h
    obtain ⟨t', ht', htid', hg'⟩ := g2t_some_exists plan g t.tableId hnd h
    have : t' = t :=
      List.inj_on_of_nodup_map htid ht' ht htid'
    exact this ▸ hg'

/-! ## Claim theorem C9 -/

theorem checkMustNot_groups_spec (plan : SeatingPlan) (c : Constraint)
    (tid : String) :
    mapGet (c.guestIds.foldl (fun m gid =>
      match mapGet (guestToTable plan) gid with
      | none => m
      | some tid' =>
          mapSet m tid' ((mapGet m tid').getD [] ++ [gid])) []) tid =
      (if (c.guestIds.filter
          (fun g => mapGet (guestToTable plan) g == some tid)).isEmpty
       then none
       else some (c.guestIds.filter
          (fun g => mapGet (guestToTable plan) g == some tid))) := by
  have := groups_fold_spec (guestToTable plan) c.guestIds [] []
    (fun tid' => by simp [mapGet_nil]) tid
  simpa using this

/-- C9: for a `MUST_NOT_SIT_TOGETHER` constraint on a duplicate-free plan,
`checkMustNotSitTogether` reports no violation iff no table holds more than
one of the constraint's guest ids; when it reports one, the violation names
the constraint id, an offending table (the first one encountered in the
order tables first appear along the constraint's guest list, matching the
JS `Map` insertion order) and exactly the co-seated referenced guest ids;
and `validateConstraints` emits at most one violation for the
constraint. -/
theorem c9_mustNotSitTogether_spec (plan : SeatingPlan) (c : Constraint)
    (guests : List Guest) (hp : (planIds plan).Nodup)
    (htid : (plan.tables.map TableAssignment.tableId).Nodup)
    (hcn : c.guestIds.Nodup)
    (htype : c.type = ConstraintType.MUST_NOT_SIT_TOGETHER) :
    (checkMustNotSitTogether c (guestToTable plan) = none ↔
      ∀ t ∈ plan.tables,
        (c.guestIds.filter (fun g => t.guestIds.contains g)).length ≤ 1) ∧
    (∀ v, checkMustNotSitTogether c (guestToTable plan) = some v →
      v.constraintId = c.id ∧
      ∃ t ∈ plan.tables,
        2 ≤ (c.guestIds.filter (fun g => t.guestIds.contains g)).length ∧
        v.tableId = some t.tableId ∧
        v.guestIds = c.guestIds.filter (fun g => t.guestIds.contains g)) ∧
    (validateConstraints plan [c] guests).violations.length ≤ 1 := by
  have filtEq : ∀ t ∈ plan.tables,
      c.guestIds.filter (fun g => t.guestIds.contains g)
        = c.guestIds.filter
          (fun g => mapGet (guestToTable plan) g == some t.tableId) := by
    intro t ht
    refine List.filter_congr (fun g _ => ?_)
    have hiff := mem_iff_g2t plan t g hp htid ht
    by_cases hgm : g ∈ t.guestIds
    · have h2 := hiff.mp hgm
      simp [hgm, h2]
    · have h2 : ¬ mapGet (guestToTable plan) g = some t.tableId :=
        fun hc => hgm (hiff.mpr hc)
      simp [hgm, h2]
  have hkeys : (((c.guestIds.foldl (fun m gid =>
      match mapGet (guestToTable plan) gid with
      | none => m
      | some tid' =>
          mapSet m tid' ((mapGet m tid').getD [] ++ [gid])) [])).map
        Prod.fst).Nodup :=
    groups_fold_keys_nodup (guestToTable plan) c.guestIds [] (by simp)
  -- facts about the reported entry in the `some` case
  have hsome_fact : ∀ p, (c.guestIds.foldl (fun m gid =>
      match mapGet (guestToTable plan) gid with
      | none => m
      | some tid' =>
          mapSet m tid' ((mapGet m tid').getD [] ++ [gid])) []).find?
        (fun p => decide (1 < p.2.length)) = some p →
      ∃ t ∈ plan.tables, t.tableId = p.1 ∧
        p.2 = c.guestIds.filter (fun g => t.guestIds.contains g) ∧
        2 ≤ p.2.length := by
    intro p hfind
    have hmem := List.mem_of_find?_eq_some hfind
    have hlen := List.find?_some hfind
    simp only [decide_eq_true_eq] at hlen
    have hget := mapGet_eq_some_of_mem _ p hkeys hmem
    rw [checkMustNot_groups_spec plan c p.1] at hget
    by_cases hemp : (c.guestIds.filter
        (fun g => mapGet (guestToTable plan) g == some p.1)).isEmpty
    · rw [if_pos hemp] at hget
      simp at hget
    · rw [if_neg hemp] at hget
      have hp2 : p.2 = c.guestIds.filter
          (fun g => mapGet (guestToTable plan) g == some p.1) :=
        ((Option.some.injEq _ _).mp hget).symm
      have hne : c.guestIds.filter
          (fun g => mapGet (guestToTable plan) g == some p.1) ≠ [] := by
        intro hc
        rw [hc] at hemp
        simp at hemp
      obtain ⟨g0, hg0⟩ := List.exists_mem_of_ne_nil _ hne
      have hg0' := List.mem_filter.mp hg0
      have hg0g2t : mapGet (guestToTable plan) g0 = some p.1 := by
        simpa using hg0'.2
      obtain ⟨t, ht, htt, _⟩ := g2t_some_exists plan g0 p.1 hp hg0g2t
      refine ⟨t, ht, htt, ?_, by omega⟩
      rw [filtEq t ht, hp2, htt]
  have hnone_eq : (c.guestIds.foldl (fun m gid =>
      match mapGet (guestToTable plan) gid with
      | none => m
      | some tid' =>
          mapSet m tid' ((mapGet m tid').getD [] ++ [gid])) []).find?
        (fun p => decide (1 < p.2.length)) = none →
      checkMustNotSitTogether c (guestToTable plan) = none := by
    intro h
    simp only [checkMustNotSitTogether]
    rw [h]
  have hsome_eq : ∀ p, (c.guestIds.foldl (fun m gid =>
      match mapGet (guestToTable plan) gid with
      | none => m
      | some tid' =>
          mapSet m tid' ((mapGet m tid').getD [] ++ [gid])) []).find?
        (fun p => decide (1 < p.2.length)) = some p →
      checkMustNotSitTogether c (guestToTable plan) =
        some { constraintId := c.id,
               constraintType := "MUST_NOT_SIT_TOGETHER",
               message := "Guests must not sit together but " ++
                 toString p.2.length ++ " are at the same table",
               tableId := some p.1, guestIds := p.2 } := by
    intro p h
    simp only [checkMustNotSitTogether]
    rw [h]
  refine ⟨?_, ?_, ?_⟩
  · cases hfind : (c.guestIds.foldl (fun m gid =>
        match mapGet (guestToTable plan) gid with
        | none => m
        | some tid' =>
            mapSet m tid' ((mapGet m tid').getD [] ++ [gid])) []).find?
          (fun p => decide (1 < p.2.length)) with
    | none =>
      rw [hnone_eq hfind]
      simp only [true_iff]
      intro t ht
      rw [filtEq t ht]
      by_cases hemp : (c.guestIds.filter
          (fun g => mapGet (guestToTable plan) g == some t.tableId)).isEmpty
      · rw [List.isEmpty_iff.mp hemp]
        simp
      · have hget : mapGet (c.guestIds.foldl (fun m gid =>
            match mapGet (guestToTable plan) gid with
            | none => m
            | some tid' =>
                mapSet m tid' ((mapGet m tid').getD [] ++ [gid])) [])
              t.tableId = some (c.guestIds.filter
              (fun g => mapGet (guestToTable plan) g == some t.tableId)) := by
          rw [checkMustNot_groups_spec plan c t.tableId, if_neg hemp]
        have hmem := mem_of_mapGet_eq_some _ _ _ hget
        have := List.find?_eq_none.mp hfind _ hmem
        simp only [decide_eq_true_eq, not_lt] at this
        exact this
    | some p =>
      rw [hsome_eq p hfind]
      simp only [reduceCtorEq, false_iff, not_forall]
      obtain ⟨t, ht, htt, hp2, hlen⟩ := hsome_fact p hfind
      refine ⟨t, ?_⟩
      simp only [not_forall, not_le, exists_prop]
      exact ⟨ht, by rw [← hp2]; omega⟩
  · intro v hv
    cases hfind : (c.guestIds.foldl (fun m gid =>
        match mapGet (guestToTable plan) gid with
        | none => m
        | some tid' =>
            mapSet m tid' ((mapGet m tid').getD [] ++ [gid])) []).find?
          (fun p => decide (1 < p.2.length)) with
    | none =>
      rw [hnone_eq hfind] at hv
      simp at hv
    | some p =>
      rw [hsome_eq p hfind] at hv
      simp only [Option.some.injEq] at hv
      obtain ⟨t, ht, htt, hp2, hlen⟩ := hsome_fact p hfind
      subst hv
      refine ⟨rfl, t, ht, ?_, ?_, ?_⟩
      · rw [← hp2]; omega
      · simp [htt]
      · simpa using hp2
  · unfold validateConstraints
    simp only [List.foldl_cons, List.foldl_nil, htype]
    cases checkMustNotSitTogether c (guestToTable plan) <;> simp

/-- Witness for C9: two forbidden guests seated at table 1 of a small
duplicate-free plan; at most one violation is emitted for the
constraint. -/
theorem c9_mustNotSitTogether_spec_witness :
    (validateConstraints c9Plan [c9Constraint] []).violations.length ≤ 1 :=
  (c9_mustNotSitTogether_spec c9Plan c9Constraint [] (by decide) (by decide)
    (by decide) (by decide)).2.2

/-! ## Claim theorems C10 -/

theorem companyNotes_same_company (t : TableAssignment) (tg : List Guest) :
    ("SAME_COMPANY" ∈ (companyNotes t tg).2.map ReasonCode.code) ↔
    ((companyList tg).dedup.length = 1 ∧ 2 < tg.length) := by
  unfold companyNotes
  by_cases h1 : 1 < (companyList tg).dedup.length
  · rw [if_pos h1]
    simp only [List.map_cons, List.map_nil, List.mem_singleton]
    constructor
    · intro h
      exact absurd h (by decide)
    · rintro ⟨h2, _⟩
      omega
  · rw [if_neg h1]
    by_cases h2 : ((companyList tg).dedup.length = 1 && decide (2 < tg.length)) = true
    · rw [if_pos h2]
      simp only [Bool.and_eq_true, decide_eq_true_eq] at h2
      simp only [List.map_cons, List.map_nil, List.mem_singleton]
      constructor
      · intro _
        exact ⟨by simpa using h2.1, h2.2⟩
      · intro _
        trivial
    · rw [if_neg h2]
      simp only [List.map_nil, List.not_mem_nil, false_iff, not_and]
      intro hlen hcard
      exact h2 (by simp [hlen, hcard])

theorem departmentNotes_codes (t : TableAssignment) (tg : List Guest) :
    ∀ rc ∈ (departmentNotes t tg).2, rc.code = "DEPARTMENT_DIVERSITY" := by
  simp only [departmentNotes]
  split_ifs <;> simp_all

theorem seniorityNotes_codes (t : TableAssignment) (tg : List Guest) :
    ∀ rc ∈ (seniorityNotes t tg).2, rc.code = "SENIORITY_MIX" := by
  simp only [seniorityNotes]
  split_ifs <;> simp_all

theorem buyerSellerNotes_codes (t : TableAssignment) (tg : List Guest) :
    ∀ rc ∈ (buyerSellerNotes t tg).2, rc.code = "BUYER_SELLER_MIX" := by
  simp only [buyerSellerNotes]
  split_ifs <;> simp_all

theorem catalystNotes_codes (t : TableAssignment) (tg : List Guest) :
    ∀ rc ∈ (catalystNotes t tg).2, rc.code = "CATALYST_PRESENT" := by
  simp only [catalystNotes]
  split_ifs <;> simp_all

theorem competingSellerNotes_codes (t : TableAssignment) (tg : List Guest) :
    ∀ rc ∈ (competingSellerNotes t tg).2, rc.code = "COMPETING_SELLERS" := by
  simp only [competingSellerNotes]
  split_ifs <;> simp_all

theorem groupedNotes_codes (guests : List Guest)
    (constraints : List Constraint) (t : TableAssignment) :
    ∀ rc ∈ ((groupedNotes guests constraints t).map Prod.snd).flatten,
      rc.code = "MUST_SIT_TOGETHER_SATISFIED" := by
  intro rc hrc
  rw [List.mem_flatten] at hrc
  obtain ⟨l, hl, hrcl⟩ := hrc
  obtain ⟨pr, hpr, hprl⟩ := List.mem_map.mp hl
  rw [groupedNotes] at hpr
  obtain ⟨c, _, hc⟩ := List.mem_map.mp hpr
  subst hprl
  rw [← hc] at hrcl
  by_cases h1 : (c.type == ConstraintType.MUST_SIT_TOGETHER) = true
  · rw [if_pos h1] at hrcl
    revert hrcl
    simp only [groupedNoteFor]
    split_ifs <;> simp_all
  · rw [if_neg h1] at hrcl
    simp at hrcl

theorem tableNotes_mem_same (guests : List Guest)
    (constraints : List Constraint) (t : TableAssignment) (rc : ReasonCode)
    (hrc : rc ∈ (tableNotes guests constraints t).2)
    (hcode : rc.code = "SAME_COMPANY") :
    rc ∈ (companyNotes t (resolvedGuests guests t)).2 := by
  have hd := departmentNotes_codes t (resolvedGuests guests t) rc
  have hs := seniorityNotes_codes t (resolvedGuests guests t) rc
  have hb := buyerSellerNotes_codes t (resolvedGuests guests t) rc
  have hcat := catalystNotes_codes t (resolvedGuests guests t) rc
  have hcomp := competingSellerNotes_codes t (resolvedGuests guests t) rc
  have hg := groupedNotes_codes guests constraints t rc
  simp only [tableNotes, List.mem_append] at hrc
  rcases hrc with ((((((h | h) | h) | h) | h) | h) | h)
  · exact h
  · exact absurd ((hd h).symm.trans hcode) (by decide)
  · exact absurd ((hs h).symm.trans hcode) (by decide)
  · exact absurd ((hb h).symm.trans hcode) (by decide)
  · exact absurd ((hcat h).symm.trans hcode) (by decide)
  · exact absurd ((hcomp h).symm.trans hcode) (by decide)
  · exact absurd ((hg h).symm.trans hcode) (by decide)

theorem tableNotes_same_company (guests : List Guest)
    (constraints : List Constraint) (t : TableAssignment) :
    ("SAME_COMPANY" ∈ (tableNotes guests constraints t).2.map
      ReasonCode.code) ↔
    ((companyList (resolvedGuests guests t)).dedup.length = 1 ∧
      2 < (resolvedGuests guests t).length) := by
  rw [← companyNotes_same_company t (resolvedGuests guests t)]
  constructor
  · intro h
    obtain ⟨rc, hrc, hcode⟩ := List.mem_map.mp h
    have hmem := tableNotes_mem_same guests constraints t rc hrc hcode
    exact hcode ▸ List.mem_map_of_mem ReasonCode.code hmem
  · intro h
    obtain ⟨rc, hrc, hcode⟩ := List.mem_map.mp h
    refine List.mem_map.mpr ⟨rc, ?_, hcode⟩
    simp only [tableNotes, List.mem_append]
    exact Or.inl (Or.inl (Or.inl (Or.inl (Or.inl (Or.inl hrc)))))

theorem generateExplanations_reasonCodes (plan : SeatingPlan)
    (guests : List Guest) (metrics : PlanMetrics)
    (constraints : List Constraint) :
    (generateExplanations plan guests metrics constraints).reasonCodes =
    (plan.tables.map (fun t =>
      if (resolvedGuests guests t).length = 0 then []
      else (tableNotes guests constraints t).2)).flatten := by
  have aux : ∀ (ts : List TableAssignment)
      (acc : List (String × List String) × List ReasonCode),
      (ts.foldl (fun (acc : List (String × List String) × List ReasonCode) t =>
        let tg := resolvedGuests guests t
        if tg.length = 0 then acc
        else
          let notes := tableNotes guests constraints t
          (mapSet acc.1 t.tableId notes.1, acc.2 ++ notes.2)) acc).2
        = acc.2 ++ (ts.map (fun t =>
          if (resolvedGuests guests t).length = 0 then []
          else (tableNotes guests constraints t).2)).flatten := by
    intro ts
    induction ts with
    | nil => intro acc; simp
    | cons t ts ih =>
      intro acc
      simp only [List.foldl_cons, List.map_cons, List.flatten_cons]
      by_cases hemp : (resolvedGuests guests t).length = 0
      · rw [if_pos hemp] at *
        rw [ih]
        simp [hemp]
      · rw [if_neg hemp] at *
        rw [ih]
        simp [hemp, List.append_assoc]
  exact aux plan.tables ([], [])

/-- C10 counterexample: three guests at `c10Table` share the company
`Acme`, yet because a fourth guest from `Beta` is present the Explanation
Generator emits no `SAME_COMPANY` reason code for the plan (it emits
`COMPANY_DIVERSITY` instead). -/
theorem c10_same_company_counterexample :
    3 ≤ ((resolvedGuests c10Guests c10Table).filter
      (fun g => g.company == some "Acme")).length ∧
    ∀ rc ∈ (generateExplanations c10Plan c10Guests zeroMetrics
      []).reasonCodes, rc.code ≠ "SAME_COMPANY" := by
  with_unfolding_all decide

theorem companyNotes_tableId (t : TableAssignment) (tg : List Guest) :
    ∀ rc ∈ (companyNotes t tg).2, rc.tableId = t.tableId := by
  simp only [companyNotes]
  split_ifs <;> simp_all

theorem companyNotes_same_company_rc (t : TableAssignment)
    (tg : List Guest) (h1 : (companyList tg).dedup.length = 1)
    (h2 : 2 < tg.length) :
    ∃ rc ∈ (companyNotes t tg).2, rc.code = "SAME_COMPANY" ∧
      rc.impact = "negative" ∧ rc.tableId = t.tableId := by
  unfold companyNotes
  rw [if_neg (by omega), if_pos (by simp [h1, h2])]
  exact ⟨_, List.mem_cons_self _ _, rfl, rfl, rfl⟩

theorem companyNotes_same_company_cond (t : TableAssignment)
    (tg : List Guest) (rc : ReasonCode)
    (hrc : rc ∈ (companyNotes t tg).2)
    (hcode : rc.code = "SAME_COMPANY") :
    (companyList tg).dedup.length = 1 ∧ 2 < tg.length := by
  revert hrc
  simp only [companyNotes]
  split_ifs with ha hb
  · intro hrc
    simp only [List.mem_singleton] at hrc
    rw [hrc] at hcode
    simp at hcode
  · intro _
    simp only [Bool.and_eq_true, decide_eq_true_eq] at hb
    exact ⟨hb.1, hb.2⟩
  · intro hrc
    simp at hrc

/-- C10 (amended): for every table of a plan whose table ids are pairwise
distinct (the data model), the Explanation Generator emits a negative
`SAME_COMPANY` reason code carrying that table's id iff the table seats
more than two resolved guests and exactly one distinct non-empty company
appears among them; in particular a table where three or more guests share
a company does not receive the code when a second company is present. -/
theorem c10_same_company_amended (plan : SeatingPlan) (guests : List Guest)
    (metrics : PlanMetrics) (constraints : List Constraint)
    (htid : (plan.tables.map TableAssignment.tableId).Nodup)
    (t : TableAssignment) (ht : t ∈ plan.tables) :
    (∃ rc ∈ (generateExplanations plan guests metrics
        constraints).reasonCodes, rc.code = "SAME_COMPANY" ∧
        rc.impact = "negative" ∧ rc.tableId = t.tableId) ↔
    ((companyList (resolvedGuests guests t)).dedup.length = 1 ∧
      2 < (resolvedGuests guests t).length) := by
  rw [generateExplanations_reasonCodes]
  constructor
  · rintro ⟨rc, hrc, hcode, _, hrctid⟩
    rw [List.mem_flatten] at hrc
    obtain ⟨l, hl, hrcl⟩ := hrc
    obtain ⟨t2, ht2, htl⟩ := List.mem_map.mp hl
    subst htl
    by_cases hemp : (resolvedGuests guests t2).length = 0
    · rw [if_pos hemp] at hrcl
      simp at hrcl
    · rw [if_neg hemp] at hrcl
      have hcn := tableNotes_mem_same guests constraints t2 rc hrcl hcode
      have hcond := companyNotes_same_company_cond t2
        (resolvedGuests guests t2) rc hcn hcode
      have hteq : t2 = t := by
        apply List.inj_on_of_nodup_map htid ht2 ht
        rw [companyNotes_tableId t2 (resolvedGuests guests t2) rc
          hcn] at hrctid
        exact hrctid
      rw [← hteq]
      exact hcond
  · rintro ⟨h1, h2⟩
    obtain ⟨rc, hrc, hcode, himp, hrtid⟩ :=
      companyNotes_same_company_rc t (resolvedGuests guests t) h1 h2
    refine ⟨rc, ?_, hcode, himp, hrtid⟩
    rw [List.mem_flatten]
    refine ⟨(tableNotes guests constraints t).2, ?_, ?_⟩
    · refine List.mem_map.mpr ⟨t, ht, ?_⟩
      rw [if_neg (by omega)]
    · simp only [tableNotes, List.mem_append]
      exact Or.inl (Or.inl (Or.inl (Or.inl (Or.inl (Or.inl hrc)))))

theorem c10_same_company_amended_witness :
    (c10bPlan.tables.map TableAssignment.tableId).Nodup ∧
    c10bTable ∈ c10bPlan.tables ∧
    ((∃ rc ∈ (generateExplanations c10bPlan c10Guests zeroMetrics
        []).reasonCodes, rc.code = "SAME_COMPANY" ∧
        rc.impact = "negative" ∧ rc.tableId = c10bTable.tableId) ↔
     ((companyList (resolvedGuests c10Guests c10bTable)).dedup.length
        = 1 ∧
      2 < (resolvedGuests c10Guests c10bTable).length)) :=
  ⟨by decide, by decide,
   c10_same_company_amended c10bPlan c10Guests zeroMetrics [] (by decide)
     c10bTable (by decide)⟩

/-! ## Small helpers for the assignment invariants -/

theorem sum_const_of_mem (l : List Nat) (cap : Nat) (h : ∀ x ∈ l, x = cap) :
    l.sum = l.length * cap := by
  induction l with
  | nil => simp
  | cons a l ih =>
    rw [List.sum_cons, List.length_cons, ih (fun x hx => h x (List.mem_cons_of_mem _ hx)),
      h a (List.mem_cons_self _ _)]
    ring

theorem tablesIds_length_eq (ts : List TableAssignment) :
    (tablesIds ts).length = (ts.map (fun t => t.guestIds.length)).sum := by
  rw [tablesIds, List.length_flatten, List.map_map]
  rfl

theorem pushAt_getD_self (ts : List TableAssignment) (ti : Nat) (gid : String)
    (h : ti < ts.length) :
    (pushAt ts ti gid).getD ti { tableId := "", guestIds := [] } =
      { ts.getD ti { tableId := "", guestIds := [] } with
        guestIds := (ts.getD ti
          { tableId := "", guestIds := [] }).guestIds ++ [gid] } := by
  have hsome : ts[ti]? = some ts[ti] := by simp [List.getElem?_eq_some_iff, h]
  unfold pushAt
  rw [hsome]
  rw [List.getD_eq_getElem _ _ (by simpa using h)]
  rw [List.getElem_set, if_pos rfl, List.getD_eq_getElem _ _ h]

theorem pushAt_getD_other (ts : List TableAssignment) (ti j : Nat)
    (gid : String) (hne : ti ≠ j) :
    (pushAt ts ti gid).getD j { tableId := "", guestIds := [] } =
      ts.getD j { tableId := "", guestIds := [] } := by
  unfold pushAt
  cases hsome : ts[ti]? with
  | none => rfl
  | some t0 =>
    by_cases hj : j < ts.length
    · rw [List.getD_eq_getElem _ _ (by simpa using hj),
        List.getD_eq_getElem _ _ hj, List.getElem_set, if_neg hne]
    · rw [List.getD_eq_default _ _ (by simpa using Nat.le_of_not_lt hj),
        List.getD_eq_default _ _ (Nat.le_of_not_lt hj)]

theorem initialTables_length (tc : Nat) : (initialTables tc).length = tc := by
  simp [initialTables]

theorem tablesIds_initialTables (tc : Nat) :
    tablesIds (initialTables tc) = [] := by
  unfold tablesIds initialTables
  rw [List.map_map]
  induction tc with
  | zero => simp
  | succ n ih =>
    rw [List.range_succ]
    simp_all

theorem capOK_initialTables (cap tc : Nat) : capOK cap (initialTables tc) := by
  intro t ht
  unfold initialTables at ht
  obtain ⟨i, _, hi⟩ := List.mem_map.mp ht
  rw [← hi]
  simp

/-! ## Stage A: the MUST_SIT_TOGETHER placement phase -/

theorem placeGroupFold_inv (ti : Nat) (gids : List String) :
    ∀ (ts : List TableAssignment) (asg : List String),
    ti < ts.length → asg.Nodup → (tablesIds ts).Perm asg →
    ((gids.foldl (placeGroupMember ti) (ts, asg)).2.Nodup ∧
     (tablesIds (gids.foldl (placeGroupMember ti) (ts, asg)).1).Perm
       (gids.foldl (placeGroupMember ti) (ts, asg)).2 ∧
     (gids.foldl (placeGroupMember ti) (ts, asg)).1.length = ts.length ∧
     (∀ x ∈ asg, x ∈ (gids.foldl (placeGroupMember ti) (ts, asg)).2) ∧
     (∀ x ∈ (gids.foldl (placeGroupMember ti) (ts, asg)).2,
        x ∈ asg ∨ x ∈ gids)) := by
  induction gids with
  | nil =>
    intro ts asg _ hnd hperm
    exact ⟨hnd, hperm, rfl, fun x hx => hx, fun x hx => Or.inl hx⟩
  | cons gid gids ih =>
    intro ts asg hti hnd hperm
    simp only [List.foldl_cons]
    by_cases hmem : (asg.contains gid) = true
    · have hstep : placeGroupMember ti (ts, asg) gid = (ts, asg) := by
        unfold placeGroupMember
        rw [if_pos hmem]
      rw [hstep]
      obtain ⟨h1, h2, h3, h4, h5⟩ := ih ts asg hti hnd hperm
      exact ⟨h1, h2, h3, h4, fun x hx => (h5 x hx).imp id
        (List.mem_cons_of_mem _)⟩
    · have hstep : placeGroupMember ti (ts, asg) gid
          = (pushAt ts ti gid, gid :: asg) := by
        unfold placeGroupMember
        rw [if_neg hmem]
      rw [hstep]
      have hgid : gid ∉ asg := by simpa using hmem
      have hnd' : (gid :: asg).Nodup := List.nodup_cons.mpr ⟨hgid, hnd⟩
      have hperm' : (tablesIds (pushAt ts ti gid)).Perm (gid :: asg) :=
        (tablesIds_pushAt_perm ts ti gid hti).trans (hperm.cons gid)
      have hti' : ti < (pushAt ts ti gid).length := by
        rw [pushAt_length]; exact hti
      obtain ⟨h1, h2, h3, h4, h5⟩ := ih (pushAt ts ti gid) (gid :: asg)
        hti' hnd' hperm'
      refine ⟨h1, h2, by rw [h3, pushAt_length], ?_, ?_⟩
      · exact fun x hx => h4 x (List.mem_cons_of_mem _ hx)
      · intro x hx
        rcases h5 x hx with h | h
        · rcases List.mem_cons.mp h with h' | h'
          · exact Or.inr (h' ▸ List.mem_cons_self _ _)
          · exact Or.inl h'
        · exact Or.inr (List.mem_cons_of_mem _ h)

theorem placeGroupFold_cap (cap ti : Nat) (gids : List String) :
    ∀ (ts : List TableAssignment) (asg : List String),
    ti < ts.length → capOK cap ts →
    (ts.getD ti { tableId := "", guestIds := [] }).guestIds.length
      + gids.length ≤ cap →
    capOK cap (gids.foldl (placeGroupMember ti) (ts, asg)).1 := by
  induction gids with
  | nil =>
    intro ts asg _ hcap _
    exact hcap
  | cons gid gids ih =>
    intro ts asg hti hcap hbudget
    simp only [List.foldl_cons]
    by_cases hmem : (asg.contains gid) = true
    · have hstep : placeGroupMember ti (ts, asg) gid = (ts, asg) := by
        unfold placeGroupMember
        rw [if_pos hmem]
      rw [hstep]
      refine ih ts asg hti hcap ?_
      have := List.length_cons gid gids
      omega
    · have hstep : placeGroupMember ti (ts, asg) gid
          = (pushAt ts ti gid, gid :: asg) := by
        unfold placeGroupMember
        rw [if_neg hmem]
      rw [hstep]
      have hlen : gids.length + 1 = (gid :: gids).length := rfl
      have hroom : (ts.getD ti
          { tableId := "", guestIds := [] }).guestIds.length < cap := by
        simp only [List.length_cons] at hbudget
        omega
      have hti' : ti < (pushAt ts ti gid).length := by
        rw [pushAt_length]; exact hti
      refine ih (pushAt ts ti gid) (gid :: asg) hti'
        (capOK_pushAt cap ts ti gid hcap hroom) ?_
      rw [pushAt_getD_self ts ti gid hti]
      simp only [List.length_append, List.length_cons] at hbudget ⊢
      simp only [List.length_nil]
      omega

theorem placeGroup_inv (cap tc : Nat) (U : List String) (c : Constraint)
    (hcU : ∀ x ∈ c.guestIds, x ∈ U) (ts : List TableAssignment)
    (asg : List String) (hnd : asg.Nodup)
    (hperm : (tablesIds ts).Perm asg) (hlen : ts.length = tc)
    (hcap : capOK cap ts) (hU : ∀ x ∈ asg, x ∈ U) :
    ((placeGroup cap (ts, asg) c).2.Nodup ∧
     (tablesIds (placeGroup cap (ts, asg) c).1).Perm
       (placeGroup cap (ts, asg) c).2 ∧
     (placeGroup cap (ts, asg) c).1.length = tc ∧
     capOK cap (placeGroup cap (ts, asg) c).1 ∧
     (∀ x ∈ (placeGroup cap (ts, asg) c).2, x ∈ U)) := by
  unfold placeGroup
  cases hfind : ts.findIdx? (fun t =>
      decide (t.guestIds.length + c.guestIds.length ≤ cap)) with
  | none => exact ⟨hnd, hperm, hlen, hcap, hU⟩
  | some ti =>
    obtain ⟨hti, hpred, _⟩ :=
      List.findIdx?_eq_some_iff_getElem.mp hfind
    simp only [decide_eq_true_eq] at hpred
    have hbudget : (ts.getD ti
        { tableId := "", guestIds := [] }).guestIds.length
        + c.guestIds.length ≤ cap := by
      rw [List.getD_eq_getElem _ _ hti]
      exact hpred
    obtain ⟨h1, h2, h3, h4, h5⟩ := placeGroupFold_inv ti c.guestIds ts asg
      hti hnd hperm
    refine ⟨h1, h2, by rw [h3, hlen], ?_, ?_⟩
    · exact placeGroupFold_cap cap ti c.guestIds ts asg hti hcap hbudget
    · intro x hx
      rcases h5 x hx with h | h
      · exact hU x h
      · exact hcU x h

theorem stageA_inv (cap tc : Nat) (U : List String) (cs : List Constraint)
    (hcsU : ∀ c ∈ cs, ∀ x ∈ c.guestIds, x ∈ U) :
    ∀ (ts : List TableAssignment) (asg : List String), asg.Nodup →
    (tablesIds ts).Perm asg → ts.length = tc → capOK cap ts →
    (∀ x ∈ asg, x ∈ U) →
    ((cs.foldl (placeGroup cap) (ts, asg)).2.Nodup ∧
     (tablesIds (cs.foldl (placeGroup cap) (ts, asg)).1).Perm
       (cs.foldl (placeGroup cap) (ts, asg)).2 ∧
     (cs.foldl (placeGroup cap) (ts, asg)).1.length = tc ∧
     capOK cap (cs.foldl (placeGroup cap) (ts, asg)).1 ∧
     (∀ x ∈ (cs.foldl (placeGroup cap) (ts, asg)).2, x ∈ U)) := by
  induction cs with
  | nil =>
    intro ts asg h1 h2 h3 h4 h5
    exact ⟨h1, h2, h3, h4, h5⟩
  | cons c cs ih =>
    intro ts asg h1 h2 h3 h4 h5
    simp only [List.foldl_cons]
    obtain ⟨g1, g2, g3, g4, g5⟩ := placeGroup_inv cap tc U c
      (hcsU c (List.mem_cons_self _ _)) ts asg h1 h2 h3 h4 h5
    have : placeGroup cap (ts, asg) c =
        ((placeGroup cap (ts, asg) c).1, (placeGroup cap (ts, asg) c).2) :=
      rfl
    rw [this]
    exact ih (fun c' hc' => hcsU c' (List.mem_cons_of_mem _ hc'))
      (placeGroup cap (ts, asg) c).1 (placeGroup cap (ts, asg) c).2
      g1 g2 g3 g4 g5

/-! ## Stage B: the round-robin placement phase -/

theorem getD_set_self (ts : List TableAssignment) (i : Nat)
    (v : TableAssignment) (h : i < ts.length) :
    (ts.set i v).getD i { tableId := "", guestIds := [] } = v := by
  rw [List.getD_eq_getElem _ _ (by simpa using h), List.getElem_set,
    if_pos rfl]

theorem count_erase_add (l : List String) (a y : String) (h : a ∈ l) :
    (l.erase a).count y + (if a = y then 1 else 0) = l.count y := by
  have hc := List.count_erase y a l
  have hpos : 0 < l.count a := List.count_pos_iff.mpr h
  by_cases hay : a = y
  · subst hay
    rw [if_pos rfl]
    rw [if_pos (beq_self_eq_true a)] at hc
    omega
  · rw [if_neg hay]
    rw [if_neg (by simpa using hay)] at hc
    omega

theorem spliceRemove_length_le (l : List String) (g : String) :
    (spliceRemove l g).length ≤ l.length := by
  unfold spliceRemove
  split_ifs
  · exact (List.erase_sublist g l).length_le
  · exact (List.dropLast_sublist l).length_le

theorem scanLoop_tables_cases (cs : List Constraint) (gid : String)
    (cap tc : Nat) :
    ∀ (fuel : Nat) (ts : List TableAssignment) (idx : Nat),
    (scanLoop cs gid cap tc ts idx fuel).1 = ts ∨
    ∃ k, (scanLoop cs gid cap tc ts idx fuel).1 = pushAt ts k gid := by
  intro fuel
  induction fuel with
  | zero => intro ts idx; exact Or.inl rfl
  | succ fuel ih =>
    intro ts idx
    simp only [scanLoop]
    split_ifs with hcond
    · exact Or.inr ⟨idx, rfl⟩
    · exact ih ts ((idx + 1) % tc)

theorem scanLoop_spec (cs : List Constraint) (gid : String) (cap tc : Nat) :
    ∀ (fuel : Nat) (ts : List TableAssignment) (idx : Nat),
    ts.length = tc → idx < tc →
    (((scanLoop cs gid cap tc ts idx fuel).2.2 = false →
      (scanLoop cs gid cap tc ts idx fuel).1 = ts) ∧
     ((scanLoop cs gid cap tc ts idx fuel).2.2 = true →
      ∃ k, k < ts.length ∧
        (ts.getD k { tableId := "", guestIds := [] }).guestIds.length
          < cap ∧
        (scanLoop cs gid cap tc ts idx fuel).1 = pushAt ts k gid)) := by
  intro fuel
  induction fuel with
  | zero =>
    intro ts idx _ _
    exact ⟨fun _ => rfl, fun h => by simp [scanLoop] at h⟩
  | succ fuel ih =>
    intro ts idx hlen hidx
    have htc0 : 0 < tc := Nat.lt_of_le_of_lt (Nat.zero_le idx) hidx
    simp only [scanLoop]
    split_ifs with hcond
    · refine ⟨fun h => by simp at h, fun _ => ?_⟩
      refine ⟨idx, by omega, ?_, rfl⟩
      simp only [Bool.and_eq_true, decide_eq_true_eq] at hcond
      exact hcond.1
    · exact ih ts ((idx + 1) % tc) hlen (Nat.mod_lt _ htc0)

theorem placeGuestRR_fst (cs : List Constraint) (cap tc : Nat)
    (ts : List TableAssignment) (idx : Nat) (g : Guest) :
    (placeGuestRR cs cap tc (ts, idx) g).1 =
      if (scanLoop cs g.id cap tc ts idx tc).2.2 then
        (scanLoop cs g.id cap tc ts idx tc).1
      else
        match (scanLoop cs g.id cap tc ts idx tc).1.findIdx? (fun t =>
            decide (t.guestIds.length < cap)) with
        | some i => pushAt (scanLoop cs g.id cap tc ts idx tc).1 i g.id
        | none => (scanLoop cs g.id cap tc ts idx tc).1 := rfl

theorem placeGuestRR_snd (cs : List Constraint) (cap tc : Nat)
    (st : List TableAssignment × Nat) (g : Guest) (htc0 : 0 < tc) :
    (placeGuestRR cs cap tc st g).2 < tc := by
  show ((scanLoop cs g.id cap tc st.1 st.2 tc).2.1 + 1) % tc < tc
  exact Nat.mod_lt _ htc0

theorem placeGuestRR_tables (cs : List Constraint) (cap tc : Nat)
    (ts : List TableAssignment) (idx : Nat) (g : Guest)
    (hlen : ts.length = tc) (hidx : idx < tc) :
    (∃ k, k < ts.length ∧
       (ts.getD k { tableId := "", guestIds := [] }).guestIds.length
         < cap ∧
       (placeGuestRR cs cap tc (ts, idx) g).1 = pushAt ts k g.id) ∨
    ((placeGuestRR cs cap tc (ts, idx) g).1 = ts ∧
     ∀ t ∈ ts, ¬ t.guestIds.length < cap) := by
  obtain ⟨hsf, hst⟩ := scanLoop_spec cs g.id cap tc tc ts idx hlen hidx
  rw [placeGuestRR_fst]
  cases hpl : (scanLoop cs g.id cap tc ts idx tc).2.2 with
  | true =>
    obtain ⟨k, hk, hroom, heq⟩ := hst hpl
    rw [if_pos rfl, heq]
    exact Or.inl ⟨k, hk, hroom, rfl⟩
  | false =>
    have hunch : (scanLoop cs g.id cap tc ts idx tc).1 = ts := hsf hpl
    rw [if_neg (by simp), hunch]
    cases hfind : ts.findIdx? (fun t =>
        decide (t.guestIds.length < cap)) with
    | none =>
      refine Or.inr ⟨rfl, fun t ht => ?_⟩
      simpa using List.findIdx?_eq_none_iff.mp hfind t ht
    | some i =>
      obtain ⟨hi, hpred, _⟩ := List.findIdx?_eq_some_iff_getElem.mp hfind
      refine Or.inl ⟨i, hi, ?_, rfl⟩
      rw [List.getD_eq_getElem _ _ hi]
      simpa using hpred

theorem placeGuestRR_mono (cs : List Constraint) (cap tc : Nat)
    (ts : List TableAssignment) (idx : Nat) (g : Guest) (x : String)
    (hx : x ∈ tablesIds ts) :
    x ∈ tablesIds (placeGuestRR cs cap tc (ts, idx) g).1 := by
  have hscan : x ∈ tablesIds (scanLoop cs g.id cap tc ts idx tc).1 := by
    rcases scanLoop_tables_cases cs g.id cap tc tc ts idx with h | ⟨k, h⟩
    · rw [h]; exact hx
    · rw [h]; exact mem_tablesIds_pushAt ts k g.id x hx
  rw [placeGuestRR_fst]
  cases hpl : (scanLoop cs g.id cap tc ts idx tc).2.2 with
  | true => rw [if_pos rfl]; exact hscan
  | false =>
    rw [if_neg (by simp)]
    cases hfind : (scanLoop cs g.id cap tc ts idx tc).1.findIdx? (fun t =>
        decide (t.guestIds.length < cap)) with
    | none => exact hscan
    | some i => exact mem_tablesIds_pushAt _ i g.id x hscan

theorem placeGuestRR_len_cap (cs : List Constraint) (cap tc : Nat)
    (ts : List TableAssignment) (idx : Nat) (g : Guest)
    (hlen : ts.length = tc) (hidx : idx < tc) (hcap : capOK cap ts) :
    (placeGuestRR cs cap tc (ts, idx) g).1.length = tc ∧
    capOK cap (placeGuestRR cs cap tc (ts, idx) g).1 := by
  rcases placeGuestRR_tables cs cap tc ts idx g hlen hidx with
    ⟨k, _, hroom, heq⟩ | ⟨heq, _⟩
  · rw [heq]
    exact ⟨by rw [pushAt_length, hlen],
      capOK_pushAt cap ts k g.id hcap hroom⟩
  · rw [heq]
    exact ⟨hlen, hcap⟩

theorem rrFold_mono (cs : List Constraint) (cap tc : Nat) :
    ∀ (gs : List Guest) (ts : List TableAssignment) (idx : Nat)
      (x : String), x ∈ tablesIds ts →
    x ∈ tablesIds (gs.foldl (placeGuestRR cs cap tc) (ts, idx)).1 := by
  intro gs
  induction gs with
  | nil => intro ts idx x hx; exact hx
  | cons g gs ih =>
    intro ts idx x hx
    simp only [List.foldl_cons]
    have hpair : placeGuestRR cs cap tc (ts, idx) g =
        ((placeGuestRR cs cap tc (ts, idx) g).1,
         (placeGuestRR cs cap tc (ts, idx) g).2) := rfl
    rw [hpair]
    exact ih _ _ x (placeGuestRR_mono cs cap tc ts idx g x hx)

theorem rrFold_len_cap (cs : List Constraint) (cap tc : Nat) :
    ∀ (gs : List Guest) (ts : List TableAssignment) (idx : Nat),
    ts.length = tc → idx < tc → capOK cap ts →
    ((gs.foldl (placeGuestRR cs cap tc) (ts, idx)).1.length = tc ∧
     capOK cap (gs.foldl (placeGuestRR cs cap tc) (ts, idx)).1) := by
  intro gs
  induction gs with
  | nil => intro ts idx hlen _ hcap; exact ⟨hlen, hcap⟩
  | cons g gs ih =>
    intro ts idx hlen hidx hcap
    simp only [List.foldl_cons]
    have htc0 : 0 < tc := Nat.lt_of_le_of_lt (Nat.zero_le idx) hidx
    obtain ⟨h1, h2⟩ := placeGuestRR_len_cap cs cap tc ts idx g hlen hidx
      hcap
    have hpair : placeGuestRR cs cap tc (ts, idx) g =
        ((placeGuestRR cs cap tc (ts, idx) g).1,
         (placeGuestRR cs cap tc (ts, idx) g).2) := rfl
    rw [hpair]
    exact ih _ _ h1 (placeGuestRR_snd cs cap tc (ts, idx) g htc0) h2

theorem rrFold_nodup (cs : List Constraint) (cap tc : Nat) :
    ∀ (gs : List Guest) (ts : List TableAssignment) (idx : Nat),
    ts.length = tc → idx < tc →
    (tablesIds ts).Nodup → (gs.map Guest.id).Nodup →
    (∀ g ∈ gs, g.id ∉ tablesIds ts) →
    (tablesIds (gs.foldl (placeGuestRR cs cap tc) (ts, idx)).1).Nodup := by
  intro gs
  induction gs with
  | nil => intro ts idx _ _ hnd _ _; exact hnd
  | cons g gs ih =>
    intro ts idx hlen hidx hnd hgnd hdisj
    simp only [List.map_cons, List.nodup_cons] at hgnd
    simp only [List.foldl_cons]
    have htc0 : 0 < tc := Nat.lt_of_le_of_lt (Nat.zero_le idx) hidx
    have hpair : placeGuestRR cs cap tc (ts, idx) g =
        ((placeGuestRR cs cap tc (ts, idx) g).1,
         (placeGuestRR cs cap tc (ts, idx) g).2) := rfl
    rw [hpair]
    rcases placeGuestRR_tables cs cap tc ts idx g hlen hidx with
      ⟨k, hk, _, heq⟩ | ⟨heq, _⟩
    · have hperm : (tablesIds (placeGuestRR cs cap tc (ts, idx) g).1).Perm
          (g.id :: tablesIds ts) := by
        rw [heq]
        exact tablesIds_pushAt_perm ts k g.id hk
      refine ih _ _ ?_ (placeGuestRR_snd cs cap tc (ts, idx) g htc0) ?_
        hgnd.2 ?_
      · rw [heq, pushAt_length, hlen]
      · exact hperm.nodup_iff.mpr (List.nodup_cons.mpr
          ⟨hdisj g (List.mem_cons_self _ _), hnd⟩)
      · intro g' hg' hmem
        rcases List.mem_cons.mp (hperm.mem_iff.mp hmem) with h | h
        · exact hgnd.1 (h ▸ List.mem_map_of_mem Guest.id hg')
        · exact hdisj g' (List.mem_cons_of_mem _ hg') h
    · refine ih _ _ ?_ (placeGuestRR_snd cs cap tc (ts, idx) g htc0) ?_
        hgnd.2 ?_
      · rw [heq, hlen]
      · rw [heq]; exact hnd
      · intro g' hg'
        rw [heq]
        exact hdisj g' (List.mem_cons_of_mem _ hg')

theorem rrFold_complete (cs : List Constraint) (cap tc : Nat) :
    ∀ (gs : List Guest) (ts : List TableAssignment) (idx : Nat),
    ts.length = tc → idx < tc → capOK cap ts →
    (tablesIds ts).length + gs.length ≤ tc * cap →
    ∀ g ∈ gs,
      g.id ∈ tablesIds (gs.foldl (placeGuestRR cs cap tc) (ts, idx)).1 := by
  intro gs
  induction gs with
  | nil => intro ts idx _ _ _ _ g hg; cases hg
  | cons g gs ih =>
    intro ts idx hlen hidx hcap hbudget g' hg'
    simp only [List.foldl_cons]
    have htc0 : 0 < tc := Nat.lt_of_le_of_lt (Nat.zero_le idx) hidx
    have hpair : placeGuestRR cs cap tc (ts, idx) g =
        ((placeGuestRR cs cap tc (ts, idx) g).1,
         (placeGuestRR cs cap tc (ts, idx) g).2) := rfl
    rw [hpair]
    rcases placeGuestRR_tables cs cap tc ts idx g hlen hidx with
      ⟨k, hk, hroom, heq⟩ | ⟨_, hfull⟩
    · have hperm : (tablesIds (placeGuestRR cs cap tc (ts, idx) g).1).Perm
          (g.id :: tablesIds ts) := by
        rw [heq]
        exact tablesIds_pushAt_perm ts k g.id hk
      have hlen' : (tablesIds
          (placeGuestRR cs cap tc (ts, idx) g).1).length
          = (tablesIds ts).length + 1 := by
        rw [hperm.length_eq, List.length_cons]
      rcases List.mem_cons.mp hg' with hgg | hg'tail
      · subst hgg
        exact rrFold_mono cs cap tc gs _ _ g'.id
          (hperm.mem_iff.mpr (List.mem_cons_self _ _))
      · refine ih _ _ ?_ (placeGuestRR_snd cs cap tc (ts, idx) g htc0)
          ?_ ?_ g' hg'tail
        · rw [heq, pushAt_length, hlen]
        · rw [heq]; exact capOK_pushAt cap ts k g.id hcap hroom
        · simp only [List.length_cons] at hbudget
          omega
    · exfalso
      have hall : ∀ t ∈ ts, t.guestIds.length = cap := fun t ht =>
        Nat.le_antisymm (hcap t ht) (Nat.le_of_not_lt (hfull t ht))
      have hconst : ∀ x ∈ ts.map (fun t => t.guestIds.length), x = cap := by
        intro x hx
        obtain ⟨t, ht, rfl⟩ := List.mem_map.mp hx
        exact hall t ht
      have hsum : (tablesIds ts).length = tc * cap := by
        rw [tablesIds_length_eq, sum_const_of_mem _ cap hconst,
          List.length_map, hlen]
      simp only [List.length_cons] at hbudget
      omega

theorem placeGuestRR_nil (cs : List Constraint) (cap tc : Nat) (idx : Nat)
    (g : Guest) : (placeGuestRR cs cap tc ([], idx) g).1 = [] := by
  have hscan : (scanLoop cs g.id cap tc [] idx tc).1 = [] := by
    rcases scanLoop_tables_cases cs g.id cap tc tc [] idx with h | ⟨k, h⟩
    · exact h
    · rw [h]
      exact pushAt_oob [] k g.id (Nat.zero_le k)
  rw [placeGuestRR_fst, hscan]
  cases hpl : (scanLoop cs g.id cap tc [] idx tc).2.2 with
  | true => rw [if_pos rfl]
  | false =>
    rw [if_neg (by simp)]
    rfl

theorem rrFold_nil (cs : List Constraint) (cap tc : Nat) :
    ∀ (gs : List Guest) (idx : Nat),
    (gs.foldl (placeGuestRR cs cap tc) ([], idx)).1 = [] := by
  intro gs
  induction gs with
  | nil => intro idx; rfl
  | cons g gs ih =>
    intro idx
    simp only [List.foldl_cons]
    have hpair : placeGuestRR cs cap tc ([], idx) g =
        ((placeGuestRR cs cap tc ([], idx) g).1,
         (placeGuestRR cs cap tc ([], idx) g).2) := rfl
    rw [hpair, placeGuestRR_nil cs cap tc idx g]
    exact ih _

/-! ## The initial assignment as a whole -/

theorem createInitialAssignment_tables (guests : List Guest)
    (cs : List Constraint) (tc cap seed : Nat) :
    (createInitialAssignment guests cs tc cap seed).1.tables =
      ((remainingGuests guests cs tc cap seed).foldl
        (placeGuestRR cs cap tc) ((stageAState cs tc cap).1, 0)).1 := rfl

theorem stageAState_spec (cs : List Constraint) (tc cap : Nat)
    (U : List String)
    (hU : ∀ c ∈ mstConstraints cs, ∀ x ∈ c.guestIds, x ∈ U) :
    (stageAState cs tc cap).2.Nodup ∧
    (tablesIds (stageAState cs tc cap).1).Perm (stageAState cs tc cap).2 ∧
    (stageAState cs tc cap).1.length = tc ∧
    capOK cap (stageAState cs tc cap).1 ∧
    (∀ x ∈ (stageAState cs tc cap).2, x ∈ U) := by
  unfold stageAState
  exact stageA_inv cap tc U (mstConstraints cs) hU
    (initialTables tc) [] List.nodup_nil
    (by rw [tablesIds_initialTables])
    (initialTables_length tc) (capOK_initialTables cap tc)
    (fun x hx => absurd hx (List.not_mem_nil x))

theorem remainingGuests_perm (guests : List Guest) (cs : List Constraint)
    (tc cap seed : Nat) :
    (remainingGuests guests cs tc cap seed).Perm
      (guests.filter (fun g =>
        !((stageAState cs tc cap).2.contains g.id))) := by
  unfold remainingGuests
  exact shuffle_perm _ _

theorem createInitialAssignment_len_cap (guests : List Guest)
    (cs : List Constraint) (tc cap seed : Nat) :
    (createInitialAssignment guests cs tc cap seed).1.tables.length = tc ∧
    capOK cap (createInitialAssignment guests cs tc cap seed).1.tables := by
  obtain ⟨_, _, hlen, hcap, _⟩ := stageAState_spec cs tc cap
    ((mstConstraints cs).map Constraint.guestIds).flatten
    (fun c hc x hx => List.mem_flatten.mpr
      ⟨c.guestIds, List.mem_map_of_mem _ hc, hx⟩)
  rw [createInitialAssignment_tables]
  rcases Nat.eq_zero_or_pos tc with htc | htc
  · subst htc
    rw [List.length_eq_zero.mp hlen, rrFold_nil]
    exact ⟨rfl, fun t ht => absurd ht (List.not_mem_nil t)⟩
  · exact rrFold_len_cap cs cap tc _ _ 0 hlen htc hcap

theorem createInitialAssignment_nodup (guests : List Guest)
    (cs : List Constraint) (tc cap seed : Nat)
    (hg : (guests.map Guest.id).Nodup) :
    (planIds (createInitialAssignment guests cs tc cap seed).1).Nodup := by
  obtain ⟨hand, hperm, hlen, hcap, _⟩ := stageAState_spec cs tc cap
    ((mstConstraints cs).map Constraint.guestIds).flatten
    (fun c hc x hx => List.mem_flatten.mpr
      ⟨c.guestIds, List.mem_map_of_mem _ hc, hx⟩)
  have hrem := remainingGuests_perm guests cs tc cap seed
  have hremnd : ((remainingGuests guests cs tc cap seed).map
      Guest.id).Nodup := by
    have h1 : ((guests.filter (fun g =>
        !((stageAState cs tc cap).2.contains g.id))).map Guest.id).Nodup :=
      List.Nodup.sublist
        (List.Sublist.map Guest.id (List.filter_sublist guests)) hg
    exact (hrem.map Guest.id).nodup_iff.mpr h1
  have hdisj : ∀ g ∈ remainingGuests guests cs tc cap seed,
      g.id ∉ tablesIds (stageAState cs tc cap).1 := by
    intro g hgm hm
    have hgf := hrem.mem_iff.mp hgm
    have hpred := List.of_mem_filter hgf
    simp only [Bool.not_eq_true'] at hpred
    have hnotin : g.id ∉ (stageAState cs tc cap).2 := by
      simpa using hpred
    exact hnotin (hperm.mem_iff.mp hm)
  show (tablesIds (createInitialAssignment guests cs tc cap seed).1.tables).Nodup
  rw [createInitialAssignment_tables]
  rcases Nat.eq_zero_or_pos tc with htc | htc
  · subst htc
    rw [List.length_eq_zero.mp hlen, rrFold_nil]
    exact List.nodup_nil
  · exact rrFold_nodup cs cap tc _ _ 0 hlen htc
      (hperm.nodup_iff.mpr hand) hremnd hdisj

theorem createInitialAssignment_complete (guests : List Guest)
    (cs : List Constraint) (tc cap seed : Nat)
    (hint : ∀ c ∈ cs, ∀ x ∈ c.guestIds, x ∈ guests.map Guest.id)
    (hbudget : guests.length ≤ tc * cap) :
    ∀ g ∈ guests,
      g.id ∈ planIds (createInitialAssignment guests cs tc cap seed).1 := by
  obtain ⟨hand, hperm, hlen, hcap, hsubU⟩ := stageAState_spec cs tc cap
    (guests.map Guest.id)
    (fun c hc x hx => hint c (List.mem_of_mem_filter hc) x hx)
  intro g hgmem
  rcases Nat.eq_zero_or_pos (tc * cap) with hzero | hpos
  · have hempty : guests = [] :=
      List.length_eq_zero.mp (Nat.le_zero.mp (hzero ▸ hbudget))
    rw [hempty] at hgmem
    cases hgmem
  · have htc : 0 < tc := by
      rcases Nat.eq_zero_or_pos tc with h | h
      · subst h; simp at hpos
      · exact h
    show g.id ∈ tablesIds
      (createInitialAssignment guests cs tc cap seed).1.tables
    rw [createInitialAssignment_tables]
    by_cases hassigned : g.id ∈ (stageAState cs tc cap).2
    · exact rrFold_mono cs cap tc _ _ 0 g.id (hperm.mem_iff.mpr hassigned)
    · have hginf : g ∈ guests.filter (fun g =>
          !((stageAState cs tc cap).2.contains g.id)) :=
        List.mem_filter.mpr ⟨hgmem, by simpa using hassigned⟩
      have hginr : g ∈ remainingGuests guests cs tc cap seed :=
        (remainingGuests_perm guests cs tc cap seed).mem_iff.mpr hginf
      have hb2 : (tablesIds (stageAState cs tc cap).1).length +
          (remainingGuests guests cs tc cap seed).length ≤ tc * cap := by
        have e1 : (tablesIds (stageAState cs tc cap).1).length =
            (stageAState cs tc cap).2.length := hperm.length_eq
        have e2 : (remainingGuests guests cs tc cap seed).length =
            (guests.filter (fun g =>
              !((stageAState cs tc cap).2.contains g.id))).length :=
          (remainingGuests_perm guests cs tc cap seed).length_eq
        have hsub2 : ∀ a ∈ (stageAState cs tc cap).2,
            a ∈ (guests.filter (fun g =>
              (stageAState cs tc cap).2.contains g.id)).map Guest.id := by
          intro a ha
          obtain ⟨g0, hg0, hg0a⟩ := List.mem_map.mp (hsubU a ha)
          refine List.mem_map.mpr
            ⟨g0, List.mem_filter.mpr ⟨hg0, ?_⟩, hg0a⟩
          rw [hg0a]
          simpa using ha
        have hlen2 : (stageAState cs tc cap).2.length ≤
            (guests.filter (fun g =>
              (stageAState cs tc cap).2.contains g.id)).length := by
          classical
          have hcard1 : (stageAState cs tc cap).2.toFinset.card =
              (stageAState cs tc cap).2.length :=
            List.toFinset_card_of_nodup hand
          have hsubF : (stageAState cs tc cap).2.toFinset ⊆
              ((guests.filter (fun g =>
                (stageAState cs tc cap).2.contains g.id)).map
                  Guest.id).toFinset := by
            intro a ha
            rw [List.mem_toFinset] at ha ⊢
            exact hsub2 a ha
          have h3 := Finset.card_le_card hsubF
          have h2 := List.toFinset_card_le
            ((guests.filter (fun g =>
              (stageAState cs tc cap).2.contains g.id)).map Guest.id)
          rw [List.length_map] at h2
          omega
        have hsplit : guests.length =
            (guests.filter (fun g =>
              (stageAState cs tc cap).2.contains g.id)).length +
            (guests.filter (fun g =>
              !((stageAState cs tc cap).2.contains g.id))).length :=
          List.length_eq_length_filter_add
            (fun g => (stageAState cs tc cap).2.contains g.id)
        omega
      exact rrFold_complete cs cap tc _ _ 0 hlen htc hcap hb2 g hginr

/-! ## The repair pass -/

theorem relocateStep_len (c : Constraint) (cap : Nat)
    (ts : List TableAssignment) (ti : Nat) (g : String) :
    (relocateStep c cap ts ti g).length = ts.length := by
  unfold relocateStep
  split
  · rfl
  · rw [pushAt_length]
    split
    · simp
    · rfl

theorem relocateStep_capOK (c : Constraint) (cap : Nat)
    (ts : List TableAssignment) (ti : Nat) (g : String)
    (hcap : capOK cap ts) : capOK cap (relocateStep c cap ts ti g) := by
  unfold relocateStep
  split
  next => exact hcap
  next j hfind =>
    have hj : j < ts.length := by
      simpa using List.mem_of_find?_eq_some hfind
    have hp := List.find?_some hfind
    simp only [Bool.and_eq_true, Bool.not_eq_true',
      decide_eq_true_eq] at hp
    obtain ⟨⟨hne, hroom⟩, _⟩ := hp
    have hcap1 : capOK cap (match ts[ti]? with
        | some t => ts.set ti { t with
            guestIds := spliceRemove t.guestIds g }
        | none => ts) := by
      cases hti : ts[ti]? with
      | none => exact hcap
      | some t0 =>
        intro u hu
        rcases List.mem_or_eq_of_mem_set hu with h1 | h2
        · exact hcap u h1
        · have ht0 : t0 ∈ ts := by
            obtain ⟨hlt, hval⟩ := List.getElem?_eq_some_iff.mp hti
            rw [← hval]
            exact List.getElem_mem hlt
          rw [h2]
          exact Nat.le_trans (spliceRemove_length_le t0.guestIds g)
            (hcap t0 ht0)
    refine capOK_pushAt cap _ j g hcap1 ?_
    have hgetD : (match ts[ti]? with
        | some t => ts.set ti { t with
            guestIds := spliceRemove t.guestIds g }
        | none => ts).getD j { tableId := "", guestIds := [] } =
        ts.getD j { tableId := "", guestIds := [] } := by
      cases hti : ts[ti]? with
      | none => rfl
      | some t0 =>
        rw [List.getD_eq_getElem _ _ (by simpa using hj),
          List.getD_eq_getElem _ _ hj, List.getElem_set,
          if_neg (by intro h; rw [h] at hne; simp at hne)]
    rw [hgetD]
    exact hroom

theorem relocateStep_spec (c : Constraint) (cap : Nat)
    (ts : List TableAssignment) (ti : Nat) (g : String)
    (hti : ti < ts.length)
    (hg : g ∈ (ts.getD ti { tableId := "", guestIds := [] }).guestIds) :
    (tablesIds (relocateStep c cap ts ti g)).Perm (tablesIds ts) ∧
    (∀ x ∈ (ts.getD ti { tableId := "", guestIds := [] }).guestIds,
       x ≠ g →
       x ∈ ((relocateStep c cap ts ti g).getD ti
         { tableId := "", guestIds := [] }).guestIds) := by
  have hgel : g ∈ (ts[ti]).guestIds := by
    rw [List.getD_eq_getElem _ _ hti] at hg
    exact hg
  unfold relocateStep
  split
  next => exact ⟨List.Perm.refl _, fun x hx _ => hx⟩
  next j hfind =>
    have hj : j < ts.length := by
      simpa using List.mem_of_find?_eq_some hfind
    have hp := List.find?_some hfind
    simp only [Bool.and_eq_true, Bool.not_eq_true',
      decide_eq_true_eq] at hp
    obtain ⟨⟨hne, _⟩, _⟩ := hp
    have htij : ¬ ti = j := by
      intro h
      rw [h] at hne
      simp at hne
    have htisome : ts[ti]? = some ts[ti] := by
      simp [List.getElem?_eq_some_iff, hti]
    have hsp : spliceRemove (ts[ti]).guestIds g =
        (ts[ti]).guestIds.erase g := by
      unfold spliceRemove
      rw [if_pos (by simpa using hgel)]
    have hred : (match ts[ti]? with
        | some t => ts.set ti { t with
            guestIds := spliceRemove t.guestIds g }
        | none => ts) =
        ts.set ti
          { tableId := (ts[ti]).tableId,
            guestIds := (ts[ti]).guestIds.erase g } := by
      rw [htisome]
      show ts.set ti { ts[ti] with
        guestIds := spliceRemove (ts[ti]).guestIds g } = _
      rw [hsp]
    rw [hred]
    have hjset : j < (ts.set ti
        { tableId := (ts[ti]).tableId,
          guestIds := (ts[ti]).guestIds.erase g }).length := by
      simpa using hj
    constructor
    · refine List.Perm.trans (tablesIds_pushAt_perm _ j g hjset) ?_
      refine List.perm_iff_count.mpr (fun y => ?_)
      have e1 : (tablesIds (ts.set ti
            { tableId := (ts[ti]).tableId,
              guestIds := (ts[ti]).guestIds.erase g })).count y
            + (ts[ti]).guestIds.count y
          = (tablesIds ts).count y
            + ((ts[ti]).guestIds.erase g).count y :=
        count_tablesIds_setIds_add ts ti
          ((ts[ti]).guestIds.erase g) y hti
      have e2 := count_erase_add (ts[ti]).guestIds g y hgel
      simp only [List.count_cons, beq_iff_eq]
      split_ifs at e2 ⊢ <;> omega
    · intro x hx hxg
      have h1 : (pushAt (ts.set ti
          { tableId := (ts[ti]).tableId,
            guestIds := (ts[ti]).guestIds.erase g }) j g).getD ti
          { tableId := "", guestIds := [] } =
          (ts.set ti
            { tableId := (ts[ti]).tableId,
              guestIds := (ts[ti]).guestIds.erase g }).getD ti
            { tableId := "", guestIds := [] } :=
        pushAt_getD_other _ j ti g (fun h => htij h.symm)
      rw [h1, getD_set_self ts ti _ hti]
      exact (List.mem_erase_of_ne hxg).mpr
        (by rwa [List.getD_eq_getElem _ _ hti] at hx)

theorem repairWhile_len_cap (c : Constraint) (cap : Nat) (ti : Nat) :
    ∀ (wl : List String) (ts : List TableAssignment),
    (repairWhile c cap ts ti wl).length = ts.length ∧
    (capOK cap ts → capOK cap (repairWhile c cap ts ti wl)) := by
  intro wl
  induction wl with
  | nil => intro ts; exact ⟨rfl, fun h => h⟩
  | cons g rest ih =>
    intro ts
    cases rest with
    | nil => exact ⟨rfl, fun h => h⟩
    | cons h2 rest2 =>
      have hstep : repairWhile c cap ts ti (g :: h2 :: rest2) =
          repairWhile c cap (relocateStep c cap ts ti g) ti
            (h2 :: rest2) := rfl
      rw [hstep]
      obtain ⟨hl, hc⟩ := ih (relocateStep c cap ts ti g)
      exact ⟨hl.trans (relocateStep_len c cap ts ti g), fun hcap =>
        hc (relocateStep_capOK c cap ts ti g hcap)⟩

theorem repairWhile_spec (c : Constraint) (cap : Nat) (ti : Nat) :
    ∀ (wl : List String) (ts : List TableAssignment),
    ti < ts.length → wl.Nodup →
    (∀ x ∈ wl,
      x ∈ (ts.getD ti { tableId := "", guestIds := [] }).guestIds) →
    (tablesIds (repairWhile c cap ts ti wl)).Perm (tablesIds ts) := by
  intro wl
  induction wl with
  | nil => intro ts _ _ _; exact List.Perm.refl _
  | cons g rest ih =>
    intro ts hti hnd hsub
    cases rest with
    | nil => exact List.Perm.refl _
    | cons h2 rest2 =>
      have hstep : repairWhile c cap ts ti (g :: h2 :: rest2) =
          repairWhile c cap (relocateStep c cap ts ti g) ti
            (h2 :: rest2) := rfl
      rw [hstep]
      have hg : g ∈ (ts.getD ti
          { tableId := "", guestIds := [] }).guestIds :=
        hsub g (List.mem_cons_self _ _)
      obtain ⟨hperm, hpres⟩ := relocateStep_spec c cap ts ti g hti hg
      have hti' : ti < (relocateStep c cap ts ti g).length := by
        rw [relocateStep_len]
        exact hti
      obtain ⟨hg1, hrest⟩ := List.nodup_cons.mp hnd
      refine (ih (relocateStep c cap ts ti g) hti' hrest ?_).trans hperm
      intro x hx
      exact hpres x (hsub x (List.mem_cons_of_mem _ hx))
        (fun hxg => hg1 (hxg ▸ hx))

theorem repairTable_len_cap (c : Constraint) (cap : Nat)
    (ts : List TableAssignment) (ti : Nat) :
    (repairTable c cap ts ti).length = ts.length ∧
    (capOK cap ts → capOK cap (repairTable c cap ts ti)) :=
  repairWhile_len_cap c cap ti _ ts

theorem repairTable_perm (c : Constraint) (cap : Nat)
    (ts : List TableAssignment) (ti : Nat) (hti : ti < ts.length)
    (hnd : (tablesIds ts).Nodup) :
    (tablesIds (repairTable c cap ts ti)).Perm (tablesIds ts) := by
  have htnd : (ts.getD ti
      { tableId := "", guestIds := [] }).guestIds.Nodup := by
    rw [List.getD_eq_getElem _ _ hti]
    have hmem : (ts[ti]).guestIds ∈ ts.map TableAssignment.guestIds :=
      List.mem_map_of_mem _ (List.getElem_mem hti)
    exact List.Nodup.sublist (List.sublist_flatten_of_mem hmem) hnd
  refine repairWhile_spec c cap ti _ ts hti ?_ ?_
  · exact List.nodup_reverse.mpr (List.Nodup.filter _ htnd)
  · intro x hx
    rw [List.mem_reverse] at hx
    exact List.mem_of_mem_filter hx

theorem repairInner_len_cap (c : Constraint) (cap : Nat) :
    ∀ (l : List Nat) (ts : List TableAssignment),
    ((l.foldl (fun a ti => repairTable c cap a ti) ts).length
      = ts.length ∧
     (capOK cap ts →
       capOK cap (l.foldl (fun a ti => repairTable c cap a ti) ts))) := by
  intro l
  induction l with
  | nil => intro ts; exact ⟨rfl, fun h => h⟩
  | cons i l ih =>
    intro ts
    simp only [List.foldl_cons]
    obtain ⟨hl, hc⟩ := repairTable_len_cap c cap ts i
    obtain ⟨hl2, hc2⟩ := ih (repairTable c cap ts i)
    exact ⟨hl2.trans hl, fun hcap => hc2 (hc hcap)⟩

theorem repairInner_spec (c : Constraint) (cap : Nat) (n : Nat) :
    ∀ (l : List Nat) (ts : List TableAssignment),
    (∀ i ∈ l, i < n) → ts.length = n → (tablesIds ts).Nodup →
    (tablesIds (l.foldl (fun a ti => repairTable c cap a ti) ts)).Perm
      (tablesIds ts) := by
  intro l
  induction l with
  | nil => intro ts _ _ _; exact List.Perm.refl _
  | cons i l ih =>
    intro ts hbound hlen hnd
    simp only [List.foldl_cons]
    have hti : i < ts.length := by
      rw [hlen]
      exact hbound i (List.mem_cons_self _ _)
    have hperm := repairTable_perm c cap ts i hti hnd
    obtain ⟨hl, _⟩ := repairTable_len_cap c cap ts i
    exact (ih (repairTable c cap ts i)
      (fun j hj => hbound j (List.mem_cons_of_mem _ hj))
      (hl.trans hlen) (hperm.nodup_iff.mpr hnd)).trans hperm

theorem repairOuter_len_cap (cap : Nat) :
    ∀ (l : List Constraint) (ts : List TableAssignment),
    ((l.foldl (fun tables c =>
        (List.range tables.length).foldl
          (fun a ti => repairTable c cap a ti) tables) ts).length
      = ts.length ∧
     (capOK cap ts → capOK cap (l.foldl (fun tables c =>
        (List.range tables.length).foldl
          (fun a ti => repairTable c cap a ti) tables) ts))) := by
  intro l
  induction l with
  | nil => intro ts; exact ⟨rfl, fun h => h⟩
  | cons c l ih =>
    intro ts
    simp only [List.foldl_cons]
    obtain ⟨hl, hc⟩ := repairInner_len_cap c cap
      (List.range ts.length) ts
    obtain ⟨hl2, hc2⟩ := ih ((List.range ts.length).foldl
      (fun a ti => repairTable c cap a ti) ts)
    exact ⟨hl2.trans hl, fun hcap => hc2 (hc hcap)⟩

theorem repairOuter_perm (cap : Nat) :
    ∀ (l : List Constraint) (ts : List TableAssignment),
    (tablesIds ts).Nodup →
    (tablesIds (l.foldl (fun tables c =>
        (List.range tables.length).foldl
          (fun a ti => repairTable c cap a ti) tables) ts)).Perm
      (tablesIds ts) := by
  intro l
  induction l with
  | nil => intro ts _; exact List.Perm.refl _
  | cons c l ih =>
    intro ts hnd
    simp only [List.foldl_cons]
    have hperm := repairInner_spec c cap ts.length
      (List.range ts.length) ts (fun i hi => List.mem_range.mp hi)
      rfl hnd
    exact (ih ((List.range ts.length).foldl
      (fun a ti => repairTable c cap a ti) ts)
      (hperm.nodup_iff.mpr hnd)).trans hperm

theorem repairAssignment_tables (plan : SeatingPlan)
    (cs : List Constraint) (cap : Nat) :
    (repairAssignment plan cs cap).tables =
      (cs.filter (fun c =>
        c.type == ConstraintType.MUST_NOT_SIT_TOGETHER)).foldl
        (fun tables c =>
          (List.range tables.length).foldl
            (fun a ti => repairTable c cap a ti) tables)
        plan.tables := rfl

theorem repairAssignment_perm (plan : SeatingPlan) (cs : List Constraint)
    (cap : Nat) (hnd : (planIds plan).Nodup) :
    (planIds (repairAssignment plan cs cap)).Perm (planIds plan) := by
  show (tablesIds (repairAssignment plan cs cap).tables).Perm
    (tablesIds plan.tables)
  rw [repairAssignment_tables]
  exact repairOuter_perm cap _ plan.tables hnd

theorem repairAssignment_len_cap (plan : SeatingPlan)
    (cs : List Constraint) (cap : Nat) :
    (repairAssignment plan cs cap).tables.length = plan.tables.length ∧
    (capOK cap plan.tables →
      capOK cap (repairAssignment plan cs cap).tables) := by
  rw [repairAssignment_tables]
  exact repairOuter_len_cap cap _ plan.tables

/-! ## The local search preserves the seating -/

theorem mem_swapCandidates (plan : SeatingPlan) (q : Nat × Nat × Nat × Nat)
    (h : q ∈ swapCandidates plan) :
    ∃ t1 g1 t2 g2, q = (t1, g1, t2, g2) ∧
      t1 < plan.tables.length ∧ t2 < plan.tables.length ∧ t1 < t2 ∧
      g1 < (plan.tables.getD t1
        { tableId := "", guestIds := [] }).guestIds.length ∧
      g2 < (plan.tables.getD t2
        { tableId := "", guestIds := [] }).guestIds.length := by
  unfold swapCandidates at h
  obtain ⟨l1, hl1, hq1⟩ := List.mem_flatten.mp h
  obtain ⟨t1, ht1, rfl⟩ := List.mem_map.mp hl1
  obtain ⟨l2, hl2, hq2⟩ := List.mem_flatten.mp hq1
  obtain ⟨t2, ht2, rfl⟩ := List.mem_map.mp hl2
  obtain ⟨l3, hl3, hq3⟩ := List.mem_flatten.mp hq2
  obtain ⟨g1, hg1, rfl⟩ := List.mem_map.mp hl3
  obtain ⟨g2, hg2, rfl⟩ := List.mem_map.mp hq3
  obtain ⟨ht2r, hlt⟩ := List.mem_filter.mp ht2
  exact ⟨t1, g1, t2, g2, rfl, List.mem_range.mp ht1,
    List.mem_range.mp ht2r, by simpa using hlt,
    List.mem_range.mp hg1, List.mem_range.mp hg2⟩

theorem mem_moveCandidates (plan : SeatingPlan) (cap : Nat)
    (q : Nat × Nat × Nat) (h : q ∈ moveCandidates plan cap) :
    ∃ t1 g t2, q = (t1, g, t2) ∧
      t1 < plan.tables.length ∧ t2 < plan.tables.length ∧ t1 ≠ t2 ∧
      (plan.tables.getD t2
        { tableId := "", guestIds := [] }).guestIds.length < cap ∧
      g < (plan.tables.getD t1
        { tableId := "", guestIds := [] }).guestIds.length := by
  unfold moveCandidates at h
  obtain ⟨l1, hl1, hq1⟩ := List.mem_flatten.mp h
  obtain ⟨t1, ht1, rfl⟩ := List.mem_map.mp hl1
  obtain ⟨l2, hl2, hq2⟩ := List.mem_flatten.mp hq1
  obtain ⟨t2, ht2, rfl⟩ := List.mem_map.mp hl2
  obtain ⟨g, hg, rfl⟩ := List.mem_map.mp hq2
  obtain ⟨ht2r, hcond⟩ := List.mem_filter.mp ht2
  simp only [Bool.and_eq_true, Bool.not_eq_true',
    decide_eq_true_eq] at hcond
  refine ⟨t1, g, t2, rfl, List.mem_range.mp ht1,
    List.mem_range.mp ht2r, ?_, hcond.2, List.mem_range.mp hg⟩
  intro hne
  rw [hne] at hcond
  simp at hcond

theorem findImprovement_plan (guests : List Guest) (cs : List Constraint)
    (weights : ObjectiveWeights) (cap : Nat) (plan : SeatingPlan)
    (cur : Rat) (r : SeatingPlan × PlanMetrics)
    (h : findImprovement guests cs weights cap plan cur = some r) :
    (planIds r.1).Perm (planIds plan) ∧
    r.1.tables.length = plan.tables.length ∧
    (capOK cap plan.tables → capOK cap r.1.tables) := by
  simp only [findImprovement] at h
  split at h
  next r' htry =>
    rw [Option.some_inj] at h
    subst h
    obtain ⟨cnd, hcnd_mem, hcnd⟩ := List.exists_of_findSome?_eq_some htry
    obtain ⟨t1, g1, t2, g2, hq, ht1, ht2, hlt, hg1, hg2⟩ :=
      mem_swapCandidates plan cnd hcnd_mem
    subst hq
    simp only [] at hcnd
    split at hcnd
    · split at hcnd
      · rw [Option.some_inj] at hcnd
        rw [← hcnd]
        rw [List.getD_eq_getElem _ _ ht1] at hg1
        rw [List.getD_eq_getElem _ _ ht2] at hg2
        exact ⟨planIds_swapGuests_perm plan t1 g1 t2 g2
            (Nat.ne_of_lt hlt) ht1 ht2 hg1 hg2,
          swapGuests_tables_length plan t1 g1 t2 g2,
          fun hcap => capOK_swapGuests cap plan t1 g1 t2 g2 hcap⟩
      · simp at hcnd
    · simp at hcnd
  next htry =>
    obtain ⟨cnd, hcnd_mem, hcnd⟩ := List.exists_of_findSome?_eq_some h
    obtain ⟨t1, g, t2, hq, ht1, ht2, hne, hroom, hg⟩ :=
      mem_moveCandidates plan cap cnd hcnd_mem
    subst hq
    simp only [] at hcnd
    split at hcnd
    · split at hcnd
      · rw [Option.some_inj] at hcnd
        rw [← hcnd]
        rw [List.getD_eq_getElem _ _ ht1] at hg
        exact ⟨planIds_moveGuest_perm plan t1 g t2 hne ht1 ht2 hg,
          moveGuest_tables_length plan t1 g t2,
          fun hcap => capOK_moveGuest cap plan t1 g t2 hcap hne hroom⟩
      · simp at hcnd
    · simp at hcnd

theorem searchLoop_plan (guests : List Guest) (cs : List Constraint)
    (weights : ObjectiveWeights) (cap : Nat) :
    ∀ (fuel : Nat) (plan : SeatingPlan) (metrics : PlanMetrics)
      (iters : Nat),
    ((planIds (searchLoop guests cs weights cap fuel plan metrics
        iters).1).Perm (planIds plan) ∧
     (searchLoop guests cs weights cap fuel plan metrics
       iters).1.tables.length = plan.tables.length ∧
     (capOK cap plan.tables →
       capOK cap (searchLoop guests cs weights cap fuel plan metrics
         iters).1.tables)) := by
  intro fuel
  induction fuel with
  | zero => intro plan m i; exact ⟨List.Perm.refl _, rfl, fun h => h⟩
  | succ fuel ih =>
    intro plan m i
    simp only [searchLoop]
    cases hfi : findImprovement guests cs weights cap plan m.weighted with
    | none => exact ⟨List.Perm.refl _, rfl, fun h => h⟩
    | some r =>
      obtain ⟨hp, hl, hc⟩ := findImprovement_plan guests cs weights cap
        plan m.weighted r hfi
      obtain ⟨hp2, hl2, hc2⟩ := ih r.1 r.2 (i + 1)
      exact ⟨hp2.trans hp, hl2.trans hl, fun hcap => hc2 (hc hcap)⟩

/-! ## Phase 1 of `optimize` -/

theorem initialPlan_nodup (guests : List Guest) (cs : List Constraint)
    (config : OptimizationConfig) (hg : (guests.map Guest.id).Nodup) :
    (planIds (initialPlan guests cs config)).Nodup := by
  have hnd := createInitialAssignment_nodup guests cs config.tableCount
    config.seatsPerTable config.seed hg
  simp only [initialPlan]
  split_ifs with hv
  · exact hnd
  · exact (repairAssignment_perm _ cs config.seatsPerTable
      hnd).nodup_iff.mpr hnd

theorem initialPlan_len_cap (guests : List Guest) (cs : List Constraint)
    (config : OptimizationConfig) :
    (initialPlan guests cs config).tables.length = config.tableCount ∧
    capOK config.seatsPerTable (initialPlan guests cs config).tables := by
  obtain ⟨hl, hc⟩ := createInitialAssignment_len_cap guests cs
    config.tableCount config.seatsPerTable config.seed
  simp only [initialPlan]
  split_ifs with hv
  · exact ⟨hl, hc⟩
  · obtain ⟨hl2, hc2⟩ := repairAssignment_len_cap _ cs
      config.seatsPerTable
    exact ⟨hl2.trans hl, hc2 hc⟩

theorem initialPlan_complete (guests : List Guest) (cs : List Constraint)
    (config : OptimizationConfig)
    (hg : (guests.map Guest.id).Nodup)
    (hint : ∀ c ∈ cs, ∀ x ∈ c.guestIds, x ∈ guests.map Guest.id)
    (hbudget : guests.length ≤
      config.tableCount * config.seatsPerTable) :
    ∀ g ∈ guests, g.id ∈ planIds (initialPlan guests cs config) := by
  intro g hgm
  have hmem := createInitialAssignment_complete guests cs
    config.tableCount config.seatsPerTable config.seed hint hbudget g hgm
  have hnd := createInitialAssignment_nodup guests cs config.tableCount
    config.seatsPerTable config.seed hg
  simp only [initialPlan]
  split_ifs with hv
  · exact hmem
  · exact (repairAssignment_perm _ cs
      config.seatsPerTable hnd).mem_iff.mpr hmem

/-- C3: with pairwise-distinct guest ids, the plan returned by `optimize`
seats no guest id twice: every table's guest list is duplicate-free, and
distinct tables share no guest id. -/
theorem c3_no_double_seating (guests : List Guest) (cs : List Constraint)
    (weights : ObjectiveWeights) (config : OptimizationConfig)
    (hg : (guests.map Guest.id).Nodup) :
    (∀ t ∈ (optimize guests cs weights config).plan.tables,
       t.guestIds.Nodup) ∧
    (optimize guests cs weights config).plan.tables.Pairwise
      (fun a b => ∀ x ∈ a.guestIds, x ∉ b.guestIds) := by
  have hkey : (planIds (optimize guests cs weights config).plan).Nodup := by
    cases hfe : (checkFeasibility guests cs config.tableCount
        config.seatsPerTable).feasible with
    | false =>
      simp only [optimize, hfe, Bool.false_eq_true, if_false]
      simp [createInfeasibleResult, planIds, tablesIds]
    | true =>
      simp only [optimize, hfe, if_true]
      exact ((searchLoop_plan guests cs weights config.seatsPerTable
        config.maxIterations (initialPlan guests cs config) _
        0).1).nodup_iff.mpr (initialPlan_nodup guests cs config hg)
  have hkey2 : ((optimize guests cs weights config).plan.tables.map
      TableAssignment.guestIds).flatten.Nodup := hkey
  obtain ⟨hall, hpair⟩ := List.nodup_flatten.mp hkey2
  constructor
  · intro t ht
    exact hall t.guestIds (List.mem_map_of_mem _ ht)
  · exact (List.pairwise_map.mp hpair).imp
      (fun hd x hx hx2 => hd hx hx2)

theorem c3_no_double_seating_witness :
    (w3Guests.map Guest.id).Nodup ∧
    ((∀ t ∈ (optimize w3Guests [] wEqual cfg2x2).plan.tables,
        t.guestIds.Nodup) ∧
     (optimize w3Guests [] wEqual cfg2x2).plan.tables.Pairwise
       (fun a b => ∀ x ∈ a.guestIds, x ∉ b.guestIds)) :=
  ⟨by decide, c3_no_double_seating w3Guests [] wEqual cfg2x2 (by decide)⟩

/-- C4: for every input, every table of the plan returned by `optimize`
holds at most `seatsPerTable` guest ids. -/
theorem c4_capacity_bound (guests : List Guest) (cs : List Constraint)
    (weights : ObjectiveWeights) (config : OptimizationConfig) :
    ((optimize guests cs weights config).plan.tables.all
      (fun t => t.guestIds.length ≤ config.seatsPerTable)) = true := by
  have hcap : capOK config.seatsPerTable
      (optimize guests cs weights config).plan.tables := by
    cases hfe : (checkFeasibility guests cs config.tableCount
        config.seatsPerTable).feasible with
    | false =>
      simp only [optimize, hfe, Bool.false_eq_true, if_false]
      intro t ht
      simp [createInfeasibleResult] at ht
    | true =>
      simp only [optimize, hfe, if_true]
      exact (searchLoop_plan guests cs weights config.seatsPerTable
        config.maxIterations (initialPlan guests cs config) _ 0).2.2
        (initialPlan_len_cap guests cs config).2
  rw [List.all_eq_true]
  intro t ht
  simpa using hcap t ht

/-- C5: on a feasible input whose guest ids are pairwise distinct and whose
constraints only reference supplied guest ids, every guest id appears in
some table of the plan returned by `optimize`. -/
theorem c5_all_guests_seated (guests : List Guest) (cs : List Constraint)
    (weights : ObjectiveWeights) (config : OptimizationConfig)
    (hg : (guests.map Guest.id).Nodup)
    (hint : ∀ c ∈ cs, ∀ x ∈ c.guestIds, x ∈ guests.map Guest.id)
    (hfeas : (checkFeasibility guests cs config.tableCount
      config.seatsPerTable).feasible = true) :
    ∀ g ∈ guests,
      g.id ∈ planIds (optimize guests cs weights config).plan := by
  intro g hgm
  have hbudget : guests.length ≤
      config.tableCount * config.seatsPerTable :=
    ((checkFeasibility_feasible_iff guests cs config.tableCount
      config.seatsPerTable).mp hfeas).1
  have hmem := initialPlan_complete guests cs config hg hint hbudget g hgm
  simp only [optimize, hfeas, if_true]
  exact ((searchLoop_plan guests cs weights config.seatsPerTable
    config.maxIterations (initialPlan guests cs config) _
    0).1).mem_iff.mpr hmem

theorem c5_all_guests_seated_witness :
    (w3Guests.map Guest.id).Nodup ∧
    (∀ c ∈ ([] : List Constraint), ∀ x ∈ c.guestIds,
       x ∈ w3Guests.map Guest.id) ∧
    (checkFeasibility w3Guests [] cfg2x2.tableCount
      cfg2x2.seatsPerTable).feasible = true ∧
    (∀ g ∈ w3Guests,
       g.id ∈ planIds (optimize w3Guests [] wEqual cfg2x2).plan) :=
  ⟨by decide, by simp, by decide,
   c5_all_guests_seated w3Guests [] wEqual cfg2x2 (by decide) (by simp)
     (by decide)⟩

end SeatIQ
